import Mathlib

/-!
Verification of the core of `google-docs-backend/app/document_analyzer.py`.

Strings are modelled as `List Char`; Python character-class predicates
(`str.isdigit`, `str.islower`, …) are modelled over the ASCII range, which is
the range exercised by document IDs and HTML content in this code base.
Python `dict`/`set` iteration is modelled by first-occurrence order
(`List.dedup`), and Python floats by `ℚ` (the analyzer only forms ratios of
small non-negative integers).
-/

set_option maxHeartbeats 1000000

/-- Python `str.isdigit`, restricted to ASCII: `'0'..'9'`. -/
def pyIsDigit (c : Char) : Bool := 48 ≤ c.toNat && c.toNat ≤ 57

/-- Python `str.islower`, restricted to ASCII: `'a'..'z'`. -/
def pyIsLower (c : Char) : Bool := 97 ≤ c.toNat && c.toNat ≤ 122

/-- Python `str.isupper`, restricted to ASCII: `'A'..'Z'`. -/
def pyIsUpper (c : Char) : Bool := 65 ≤ c.toNat && c.toNat ≤ 90

/-- Python `str.isalpha`, restricted to ASCII (also the class `[a-zA-Z]`). -/
def pyIsAlpha (c : Char) : Bool := pyIsLower c || pyIsUpper c

/-- Python `str.isalnum` on a single character, restricted to ASCII. -/
def pyIsAlnumChar (c : Char) : Bool := pyIsAlpha c || pyIsDigit c

/-- Python `str.isalnum` on a whole string: non-empty and all alphanumeric. -/
def pyIsAlnum (s : List Char) : Bool := !s.isEmpty && s.all pyIsAlnumChar

/-- Python whitespace (the regex class `\s`, ASCII part): space, tab,
newline, carriage return, vertical tab, form feed. -/
def pyIsSpace (c : Char) : Bool :=
  c == ' ' || c == '\t' || c == '\n' || c == '\r' ||
  c.toNat == 11 || c.toNat == 12

/-- Numeric value of an ASCII digit character (Python `int(c)`). -/
def charDigitVal (c : Char) : Nat := c.toNat - 48

/-!
StructureAnalyzer: `analyze_id_structure`, `_analyze_patterns`,
`_check_alternating_pattern`.
-/

/-- Maximal runs of characters satisfying `p`, in order: the model of
`re.findall` for patterns of the form `[class]+`. -/
def runsBy (p : Char → Bool) : List Char → List (List Char)
  | [] => []
  | c :: cs =>
    let r := runsBy p cs
    if p c then
      match cs with
      | c' :: _ =>
        if p c' then
          match r with
          | run :: rest => (c :: run) :: rest
          | [] => [[c]]
        else [c] :: r
      | [] => [[c]]
    else r

/-- Embedding of `_check_alternating_pattern` (lines 63-73).  The Python
function returns `False` for inputs shorter than 2; its `for` loop only binds
two local booleans and executes `continue`, so it neither breaks, raises, nor
modifies any state, and the function then returns `True`.  The loop is
therefore embedded as the constant it computes. -/
def check_alternating_pattern (doc_id : List Char) : Bool :=
  if doc_id.length < 2 then false
  else
    true

/-- Pattern sub-report produced by `_analyze_patterns` (lines 53-61). -/
structure PatternReport where
  consecutive_digits : List (List Char)
  consecutive_letters : List (List Char)
  special_chars : List Char
  alternating_pattern : Bool
deriving DecidableEq

/-- Embedding of `_analyze_patterns` (lines 53-61). -/
def analyze_patterns (doc_id : List Char) : PatternReport :=
  { consecutive_digits := runsBy pyIsDigit doc_id
    consecutive_letters := runsBy pyIsAlpha doc_id
    special_chars := doc_id.filter (fun c => c == '-' || c == '_')
    alternating_pattern := check_alternating_pattern doc_id }

/-- Report produced by `analyze_id_structure` (lines 41-51).  The Python
dict `character_counts` (whose keys are `set(doc_id)`) is modelled as an
association list keyed by the distinct characters of the input. -/
structure IdStructureReport where
  length : Nat
  character_counts : List (Char × Nat)
  has_hyphens : Bool
  has_underscores : Bool
  alphanumeric_only : Bool
  starts_with_digit : Bool
  pattern_analysis : PatternReport
deriving DecidableEq

/-- Embedding of `analyze_id_structure` (lines 41-51). -/
def analyze_id_structure (doc_id : List Char) : IdStructureReport :=
  { length := doc_id.length
    character_counts := doc_id.dedup.map (fun c => (c, doc_id.count c))
    has_hyphens := doc_id.contains '-'
    has_underscores := doc_id.contains '_'
    alphanumeric_only :=
      pyIsAlnum (doc_id.filter (fun c => !(c == '-') && !(c == '_')))
    starts_with_digit :=
      match doc_id with
      | [] => false
      | c :: _ => pyIsDigit c
    pattern_analysis := analyze_patterns doc_id }

/-!
DocumentInfo, ProbeRunner (`batch_test_documents`) and UniquenessAnalyzer
(`analyze_uniqueness`).
-/

/-- Embedding of the `DocumentInfo` dataclass (lines 18-26). -/
structure DocumentInfo where
  id : String
  url : String
  accessible : Bool
  title : Option String := none
  content_preview : Option String := none
  content_hash : Option String := none
  error : Option String := none
deriving DecidableEq

/-- Report returned by `analyze_uniqueness` (lines 437-465).  Python ints are
modelled as `ℤ` for `duplicate_count` (computed by subtraction) and the float
`uniqueness_rate` as `ℚ`. -/
structure UniquenessReport where
  total_tested : Nat
  accessible_count : Nat
  unique_count : Nat
  duplicate_count : Int
  uniqueness_rate : Rat
  unique_hashes : List String
deriving DecidableEq

/-- Embedding of `analyze_uniqueness` (lines 437-465).  `hash_counts` is a
Python dict built in first-occurrence order, so its key list is the `dedup`
of the hashes of accessible results that carry one. -/
def analyze_uniqueness (results : List DocumentInfo) : UniquenessReport :=
  let accessible_docs := results.filter (fun r => r.accessible)
  if accessible_docs.isEmpty then
    { total_tested := results.length
      accessible_count := 0
      unique_count := 0
      duplicate_count := 0
      uniqueness_rate := 0
      unique_hashes := [] }
  else
    let unique_hashes := (accessible_docs.filterMap (fun r => r.content_hash)).dedup
    let unique_count := unique_hashes.length
    { total_tested := results.length
      accessible_count := accessible_docs.length
      unique_count := unique_count
      duplicate_count := (accessible_docs.length : Int) - unique_count
      uniqueness_rate := (unique_count : Rat) / (accessible_docs.length : Rat)
      unique_hashes := unique_hashes }

/-- Embedding of the loop of `batch_test_documents` (lines 411-435).  The
network call `test_document_access` is abstracted by the `probe` parameter;
the `await asyncio.sleep(delay)` between iterations has no effect on the
computed result and is not modelled.  The loop state is the result list, the
`seen_hashes` set (modelled in insertion order) and `unique_count`, the last
two feeding only the log messages.  The condition
`doc_info.accessible and doc_info.content_hash` tests Python truthiness, so
an empty-string hash counts as absent. -/
def batchAux (probe : String → DocumentInfo) :
    List String → List DocumentInfo → List String → Nat → List DocumentInfo
  | [], results, _, _ => results
  | doc_id :: rest, results, seen_hashes, unique_count =>
    let doc_info := probe doc_id
    let results' := results ++ [doc_info]
    if doc_info.accessible ∧ ∃ h, doc_info.content_hash = some h ∧ h ≠ "" then
      match doc_info.content_hash with
      | some h =>
        if h ∈ seen_hashes then
          batchAux probe rest results' seen_hashes unique_count
        else
          batchAux probe rest results' (seen_hashes ++ [h]) (unique_count + 1)
      | none => batchAux probe rest results' seen_hashes unique_count
    else
      batchAux probe rest results' seen_hashes unique_count

/-- Embedding of `batch_test_documents` (lines 411-435). -/
def batch_test_documents (probe : String → DocumentInfo) (doc_ids : List String) :
    List DocumentInfo :=
  batchAux probe doc_ids [] [] 0

/-!
IdMutationEngine: `generate_incremented_ids` and its strategies
(lines 75-284).  `_test_length_variations` uses `len(base_id) // count` as a
`range` step, and Python raises `ValueError: range() arg 3 must not be zero`
when that step is 0, so the functions on the `pattern_based` path return
`Option`, `none` marking the raised exception.
-/

/-- Position of the rightmost digit of the string, the scan of
`_increment_last_digit` lines 124-128 (and, with `pyIsAlpha`, the scan of
`_increment_last_letter` lines 147-151). -/
def lastPosSuchThat (p : Char → Bool) : List Char → Option Nat
  | [] => none
  | c :: cs =>
    match lastPosSuchThat p cs with
    | some q => some (q + 1)
    | none => if p c then some 0 else none

/-- Embedding of `_increment_last_char` (lines 96-118). -/
def increment_last_char (doc_id : List Char) (count : Nat) : List (List Char) :=
  match doc_id.getLast? with
  | none => []
  | some last_char =>
    let base := doc_id.dropLast
    (List.range count).filterMap (fun i0 =>
      let i := i0 + 1
      if pyIsDigit last_char then
        some (base ++ [Nat.digitChar ((charDigitVal last_char + i) % 10)])
      else if pyIsLower last_char then
        if last_char.toNat + i ≤ 122 then some (base ++ [Char.ofNat (last_char.toNat + i)])
        else none
      else if pyIsUpper last_char then
        if last_char.toNat + i ≤ 90 then some (base ++ [Char.ofNat (last_char.toNat + i)])
        else none
      else none)

/-- Embedding of `_increment_last_digit` (lines 120-141). -/
def increment_last_digit (doc_id : List Char) (count : Nat) : List (List Char) :=
  match lastPosSuchThat pyIsDigit doc_id with
  | none => []
  | some p =>
    let last_digit := charDigitVal (doc_id.getD p ' ')
    let base_before := doc_id.take p
    let base_after := doc_id.drop (p + 1)
    (List.range count).map (fun i0 =>
      base_before ++ [Nat.digitChar ((last_digit + (i0 + 1)) % 10)] ++ base_after)

/-- Embedding of `_increment_last_letter` (lines 143-170). -/
def increment_last_letter (doc_id : List Char) (count : Nat) : List (List Char) :=
  match lastPosSuchThat pyIsAlpha doc_id with
  | none => []
  | some p =>
    let last_letter := doc_id.getD p ' '
    let base_before := doc_id.take p
    let base_after := doc_id.drop (p + 1)
    (List.range count).filterMap (fun i0 =>
      let i := i0 + 1
      if pyIsLower last_letter then
        if last_letter.toNat + i ≤ 122 then
          some (base_before ++ [Char.ofNat (last_letter.toNat + i)] ++ base_after)
        else none
      else if pyIsUpper last_letter then
        if last_letter.toNat + i ≤ 90 then
          some (base_before ++ [Char.ofNat (last_letter.toNat + i)] ++ base_after)
        else none
      else none)

/-- Embedding of `_increment_all_positions` (lines 172-194). -/
def increment_all_positions (doc_id : List Char) (max_per_position : Nat) :
    List (List Char) :=
  ((List.range doc_id.length).map (fun pos =>
    let char := doc_id.getD pos ' '
    let base_before := doc_id.take pos
    let base_after := doc_id.drop (pos + 1)
    (List.range max_per_position).filterMap (fun i0 =>
      let i := i0 + 1
      if pyIsDigit char then
        some (base_before ++ [Nat.digitChar ((charDigitVal char + i) % 10)] ++ base_after)
      else if pyIsLower char then
        if char.toNat + i ≤ 122 then
          some (base_before ++ [Char.ofNat (char.toNat + i)] ++ base_after)
        else none
      else if pyIsUpper char then
        if char.toNat + i ≤ 90 then
          some (base_before ++ [Char.ofNat (char.toNat + i)] ++ base_after)
        else none
      else none))).flatten

/-- Embedding of `_test_hyphen_variations` (lines 207-227).  The loop over
`known_hyphen_positions = [[13, 23, 41], []]` is unrolled; each `insert` is
sequential list mutation, modelled by a fold over the descending positions. -/
def test_hyphen_variations (base_id : List Char) (count : Nat) : List (List Char) :=
  let stripped := base_id.filter (fun c => !(c == '-'))
  let r1 : List (List Char) :=
    if 41 ≤ stripped.length then
      let chars := [41, 23, 13].foldl
        (fun cs pos => if pos < cs.length then cs.insertIdx pos '-' else cs) stripped
      if chars.length == 44 then [chars] else []
    else []
  let r2 : List (List Char) :=
    if stripped.length == 44 then [stripped] else []
  (r1 ++ r2).take count

/-- Value of a string of ASCII digits (Python `int(seq)` on a `\d+` match). -/
def digitsToNat (ds : List Char) : Nat :=
  ds.foldl (fun a c => a * 10 + charDigitVal c) 0

/-- Python `str(n).zfill(w)`: decimal representation left-padded with zeros
to width `w`. -/
def natToZfill (n w : Nat) : List Char :=
  let s := Nat.toDigits 10 n
  List.replicate (w - s.length) '0' ++ s

/-- Python `s.replace(pat, rep, 1)`: replace the first (leftmost) occurrence
of `pat`, if any. -/
def replaceFirst (pat rep : List Char) : List Char → List Char
  | [] => if pat.isEmpty then rep else []
  | c :: cs =>
    if pat.isPrefixOf (c :: cs) then rep ++ (c :: cs).drop pat.length
    else c :: replaceFirst pat rep cs

/-- Embedding of `_test_digit_sequence_patterns` (lines 229-247).  The
`int(seq)` of a digit run never raises, so the `except ValueError` branch is
dead; `max(0, num + delta)` is modelled with integer arithmetic truncated at
zero. -/
def test_digit_sequence_patterns (base_id : List Char) (count : Nat) :
    List (List Char) :=
  let digit_sequences := runsBy pyIsDigit base_id
  ((digit_sequences.map (fun seq =>
    if 2 ≤ seq.length then
      let num := digitsToNat seq
      ([-2, -1, 1, 2] : List Int).filterMap (fun delta =>
        let new_num := (max 0 ((num : Int) + delta)).toNat
        let new_seq := natToZfill new_num seq.length
        let new_id := replaceFirst seq new_seq base_id
        if new_id ≠ base_id then some new_id else none)
    else [])).flatten).take count

/-- Embedding of `_test_segment_boundaries` (lines 249-266). -/
def test_segment_boundaries (base_id : List Char) (count : Nat) : List (List Char) :=
  ((List.range (base_id.length - 1)).filterMap (fun i =>
    let curr_char := base_id.getD i ' '
    let next_char := base_id.getD (i + 1) ' '
    if (pyIsAlpha curr_char && pyIsDigit next_char) ||
        (pyIsDigit curr_char && pyIsAlpha next_char) then
      some ((base_id.set i next_char).set (i + 1) curr_char)
    else none)).take count

/-- Embedding of `_test_length_variations` (lines 268-284).  Python's
`range(0, len(base_id), len(base_id) // count)` raises
`ValueError: range() arg 3 must not be zero` whenever
`len(base_id) // count == 0` (in particular for every seed shorter than
`count`, the empty seed included); the raise is modelled by `none`. -/
def test_length_variations (base_id : List Char) (count : Nat) :
    Option (List (List Char)) :=
  let step := base_id.length / count
  if step == 0 then none
  else
    let indices := (List.range base_id.length).filter (fun i => i % step == 0)
    let deletions := indices.filterMap (fun i =>
      let c := base_id.getD i ' '
      if c == '-' || c == '_' then none
      else
        let new_id := base_id.take i ++ base_id.drop (i + 1)
        if new_id.length == 43 then some new_id else none)
    let duplications := indices.filterMap (fun i =>
      let c := base_id.getD i ' '
      if pyIsAlnumChar c then
        let new_id := base_id.take i ++ [c] ++ base_id.drop i
        if new_id.length == 45 then some new_id else none
      else none)
    some ((deletions ++ duplications).take count)

/-- Embedding of `_generate_pattern_based_ids` (lines 196-205).  The first
three sub-heuristics are total; only `_test_length_variations` can raise,
after the others have run. -/
def generate_pattern_based_ids (base_id : List Char) (count : Nat) :
    Option (List (List Char)) :=
  (test_length_variations base_id (count / 4)).map (fun l4 =>
    test_hyphen_variations base_id (count / 4) ++
    test_digit_sequence_patterns base_id (count / 4) ++
    test_segment_boundaries base_id (count / 4) ++ l4)

/-- Dispatch on one strategy name inside the loop of
`generate_incremented_ids` (lines 82-92); unknown names fall through and
contribute nothing. -/
def strategyResults (base_id : List Char) : String → Option (List (List Char))
  | "last_char" => some (increment_last_char base_id 5)
  | "last_digit" => some (increment_last_digit base_id 10)
  | "last_letter" => some (increment_last_letter base_id 5)
  | "all_positions" => some (increment_all_positions base_id 2)
  | "pattern_based" => generate_pattern_based_ids base_id 20
  | _ => some []

/-- The strategy loop of `generate_incremented_ids`: extend the accumulator
with each strategy's output, propagating a raised exception. -/
def gatherStrategies (base_id : List Char) : List String → Option (List (List Char))
  | [] => some []
  | s :: rest =>
    (strategyResults base_id s).bind (fun r =>
      (gatherStrategies base_id rest).map (fun rs => r ++ rs))

/-- Embedding of `generate_incremented_ids` (lines 75-94).  `none` strategy
input selects the default list; the final `list(set(...))` deduplication is
modelled in first-seen order by `List.dedup` (Python's set order is
unspecified; no claim here depends on the order). -/
def generate_incremented_ids (base_id : List Char)
    (increment_strategies : Option (List String)) : Option (List (List Char)) :=
  let strategies := increment_strategies.getD
    ["last_char", "last_digit", "last_letter", "all_positions", "pattern_based"]
  (gatherStrategies base_id strategies).map List.dedup

/-- Candidate `c` differs from `s` in exactly one position (same length and
exactly one index where the characters disagree) — the property claimed of
every `last_digit` candidate. -/
def differsInExactlyOnePos (c s : List Char) : Bool :=
  c.length == s.length &&
    ((List.range s.length).filter
      (fun j => !(c.getD j ' ' == s.getD j ' '))).length == 1

/-!
ContentNormalizer: `_calculate_content_hash_fallback` (lines 335-366), the
repository's own pure normalization pipeline.  The primary branch of
`_calculate_content_hash` (lines 286-333) delegates HTML parsing to the
external BeautifulSoup library and applies the same noise-stripping rules,
falling back to this pipeline whenever that import or parse fails; the
fallback is the in-repository logic and is what we embed.  Each `re.sub`
call is embedded as a left-to-right scan with a dedicated matcher for its
pattern, following Python's leftmost, non-overlapping match semantics.  The
final `hashlib.sha256(normalized.encode()).hexdigest()` is a deterministic
function of the normalized text, so two inputs get equal hex digests
whenever `fbNormalize` agrees on them; fingerprint equality is therefore
stated as equality of the normalized texts.
-/

/-- Characters equal up to ASCII case (the effect of `re.IGNORECASE` on the
ASCII literals used in this file). -/
def lowerEq (a b : Char) : Bool :=
  a == b || (pyIsUpper a && b.toNat == a.toNat + 32) ||
    (pyIsUpper b && a.toNat == b.toNat + 32)

/-- Match a literal at the head of the input, returning the rest. -/
def matchLit : List Char → List Char → Option (List Char)
  | [], s => some s
  | _ :: _, [] => none
  | l :: ls, c :: cs => if l == c then matchLit ls cs else none

/-- Match a literal at the head of the input up to ASCII case. -/
def matchLitCI : List Char → List Char → Option (List Char)
  | [], s => some s
  | _ :: _, [] => none
  | l :: ls, c :: cs => if lowerEq l c then matchLitCI ls cs else none

/-- Minimal scan for a literal: the regex `.*?lit` under `re.DOTALL`,
case-sensitively; returns the input after the first occurrence of `lit`. -/
def seekLit (lit : List Char) : List Char → Option (List Char)
  | [] => matchLit lit []
  | c :: cs =>
    match matchLit lit (c :: cs) with
    | some r => some r
    | none => seekLit lit cs

/-- Minimal scan for a literal without `re.DOTALL`: `.` does not cross a
newline, so the scan fails upon reaching one before the literal. -/
def seekLitNoNL (lit : List Char) : List Char → Option (List Char)
  | [] => matchLit lit []
  | c :: cs =>
    match matchLit lit (c :: cs) with
    | some r => some r
    | none => if c == '\n' then none else seekLitNoNL lit cs

/-- Minimal scan for a literal under `re.DOTALL` and `re.IGNORECASE`. -/
def seekLitCI (lit : List Char) : List Char → Option (List Char)
  | [] => matchLitCI lit []
  | c :: cs =>
    match matchLitCI lit (c :: cs) with
    | some r => some r
    | none => seekLitCI lit cs

/-- Group collection for `<title>(.*?)</title>` after the opening tag: the
non-greedy group runs to the first case-insensitive `</title>`, and without
`re.DOTALL` it may not contain a newline. -/
def titleGroup : List Char → Option (List Char)
  | [] => none
  | c :: cs =>
    match matchLitCI ['<', '/', 't', 'i', 't', 'l', 'e', '>'] (c :: cs) with
    | some _ => some []
    | none =>
      if c == '\n' then none else (titleGroup cs).map (fun g => c :: g)

/-- Embedding of `re.search(r'<title>(.*?)</title>', content, re.IGNORECASE)`
(line 337): leftmost position where the whole pattern matches, returning
group 1. -/
def titleScan : List Char → Option (List Char)
  | [] => none
  | c :: cs =>
    match (matchLitCI ['<', 't', 'i', 't', 'l', 'e', '>'] (c :: cs)).bind titleGroup with
    | some g => some g
    | none => titleScan cs

/-- Python `str.strip()`: drop leading and trailing whitespace. -/
def pyStrip (s : List Char) : List Char :=
  ((s.dropWhile pyIsSpace).reverse.dropWhile pyIsSpace).reverse

/-- One left-to-right `re.sub(pattern, '', ...)` pass: at each position try
the matcher; on a match drop the matched span and continue after it,
otherwise keep the character.  The fuel argument is the structural-recursion
bound; `scanSub` supplies the input length, which is sufficient for any
matcher that consumes at least one character. -/
def scanAux (m : List Char → Option (List Char)) : Nat → List Char → List Char
  | 0, s => s
  | _ + 1, [] => []
  | fuel + 1, c :: cs =>
    match m (c :: cs) with
    | some rest => scanAux m fuel rest
    | none => c :: scanAux m fuel cs

/-- Deletion-substitution of every match of `m`, scanning left to right. -/
def scanSub (m : List Char → Option (List Char)) (s : List Char) : List Char :=
  scanAux m s.length s

/-- Matcher for `<name[^>]*>.*?</name>` with `re.DOTALL | re.IGNORECASE`
(the script/style/noscript removals, lines 340-342). -/
def matchTag (name : List Char) (s : List Char) : Option (List Char) :=
  (matchLitCI ('<' :: name) s).bind (fun r1 =>
    match r1.span (fun c => !(c == '>')) with
    | (_, '>' :: r2) => seekLitCI ('<' :: '/' :: (name ++ ['>'])) r2
    | _ => none)

/-- Matcher for `<[^>]+>` (the tag stripper, line 344). -/
def matchAngle : List Char → Option (List Char)
  | [] => none
  | c :: cs =>
    if c == '<' then
      match cs.span (fun x => !(x == '>')) with
      | ([], _) => none
      | (_ :: _, '>' :: r2) => some r2
      | _ => none
    else none

/-- Collapse of whitespace runs to single spaces: `re.sub(r'\s+', ' ', s)`
(lines 348 and 364). -/
def collapseWs : List Char → List Char
  | [] => []
  | c :: cs =>
    if pyIsSpace c then
      match cs with
      | c' :: _ => if pyIsSpace c' then collapseWs cs else ' ' :: collapseWs cs
      | [] => [' ']
    else c :: collapseWs cs

/-- Matcher for `var DOCS_timing.*?;` (line 350). -/
def matchVarDocs (s : List Char) : Option (List Char) :=
  (matchLit "var DOCS_timing".toList s).bind (seekLitNoNL [';'])

/-- Matcher for `nonce="[^"]*"` (line 351). -/
def matchNonce (s : List Char) : Option (List Char) :=
  (matchLit "nonce=".toList s).bind (fun r0 =>
    match r0 with
    | q :: r =>
      if q == '"' then
        match r.span (fun c => !(c == '"')) with
        | (_, '"' :: r2) => some r2
        | _ => none
      else none
    | [] => none)

/-- Matcher for `sid=[^&"]*` (line 352); the star may match zero characters,
so the literal alone suffices. -/
def matchSid (s : List Char) : Option (List Char) :=
  (matchLit "sid=".toList s).map
    (fun r => (r.span (fun c => !(c == '&') && !(c == '"'))).2)

/-- Matcher for `Loading\.\.\.` (line 353). -/
def matchLoading (s : List Char) : Option (List Char) :=
  matchLit "Loading...".toList s

/-- Matcher for `Sign in.*?Google` (line 354). -/
def matchSignIn (s : List Char) : Option (List Char) :=
  (matchLit "Sign in".toList s).bind (seekLitNoNL "Google".toList)

/-- Matcher for `Last edit was.*?ago` (line 355). -/
def matchLastEdit (s : List Char) : Option (List Char) :=
  (matchLit "Last edit was".toList s).bind (seekLitNoNL "ago".toList)

/-- Tail of the timestamp pattern after the hour digits:
`:\d{2}:\d{2}\s*(AM|PM)` (line 356). -/
def tsTail (r : List Char) : Option (List Char) :=
  match r with
  | c0 :: d1 :: d2 :: c1 :: d3 :: d4 :: rest =>
    if c0 == ':' && pyIsDigit d1 && pyIsDigit d2 && c1 == ':' &&
        pyIsDigit d3 && pyIsDigit d4 then
      let r2 := (rest.span pyIsSpace).2
      match matchLit ['A', 'M'] r2 with
      | some out => some out
      | none => matchLit ['P', 'M'] r2
    else none
  | _ => none

/-- Matcher for `\d{1,2}:\d{2}:\d{2}\s*(AM|PM)` (line 356): the greedy
bounded repeat tries two hour digits first, then backtracks to one. -/
def matchTs : List Char → Option (List Char)
  | [] => none
  | d1 :: rest =>
    if pyIsDigit d1 then
      match rest with
      | d2 :: r2 =>
        if pyIsDigit d2 then
          match tsTail r2 with
          | some out => some out
          | none => tsTail rest
        else tsTail rest
      | [] => none
    else none

/-- Matcher for `Page \d+ of \d+` (line 357). -/
def matchPage (s : List Char) : Option (List Char) :=
  (matchLit "Page ".toList s).bind (fun r1 =>
    match r1.span pyIsDigit with
    | ([], _) => none
    | (_ :: _, r2) =>
      (matchLit " of ".toList r2).bind (fun r3 =>
        match r3.span pyIsDigit with
        | ([], _) => none
        | (_ :: _, r4) => some r4))

/-- Matcher for `DOCS_timing\[.*?\].*?;` (line 359). -/
def matchDocsBr (s : List Char) : Option (List Char) :=
  (matchLit "DOCS_timing[".toList s).bind (fun r =>
    (seekLitNoNL [']'] r).bind (seekLitNoNL [';']))

/-- Matcher for `new Date\(\)\.getTime\(\)` (line 360). -/
def matchNewDate (s : List Char) : Option (List Char) :=
  matchLit "new Date().getTime()".toList s

/-- Matcher for `_reqid=[^&"]*` (line 361). -/
def matchReqid (s : List Char) : Option (List Char) :=
  (matchLit "_reqid=".toList s).map
    (fun r => (r.span (fun c => !(c == '&') && !(c == '"'))).2)

/-- Matcher for `authuser=[^&"]*` (line 362). -/
def matchAuthuser (s : List Char) : Option (List Char) :=
  (matchLit "authuser=".toList s).map
    (fun r => (r.span (fun c => !(c == '&') && !(c == '"'))).2)

/-- Embedding of `_calculate_content_hash_fallback` (lines 335-366) up to
the final SHA-256: the canonical normalized text whose UTF-8 bytes are
hashed.  Two contents with equal `fbNormalize` values receive the same hex
digest. -/
def fbNormalize (content : List Char) : List Char :=
  let title :=
    match titleScan content with
    | some g => pyStrip g
    | none => []
  let n1 := scanSub (matchTag "script".toList) content
  let n2 := scanSub (matchTag "style".toList) n1
  let n3 := scanSub (matchTag "noscript".toList) n2
  let text_content := scanSub matchAngle n3
  let full_text := title ++ '\n' :: text_content
  let norm0 := collapseWs (pyStrip full_text)
  let norm1 := scanSub matchVarDocs norm0
  let norm2 := scanSub matchNonce norm1
  let norm3 := scanSub matchSid norm2
  let norm4 := scanSub matchLoading norm3
  let norm5 := scanSub matchSignIn norm4
  let norm6 := scanSub matchLastEdit norm5
  let norm7 := scanSub matchTs norm6
  let norm8 := scanSub matchPage norm7
  let norm9 := scanSub matchDocsBr norm8
  let norm10 := scanSub matchNewDate norm9
  let norm11 := scanSub matchReqid norm10
  let norm12 := scanSub matchAuthuser norm11
  pyStrip (collapseWs norm12)

/-- The characters that can occur in the text family of the C3 generality
statement: lowercase letters, digits, space, colon, and the uppercase
letters of the `Page` footer and `AM`/`PM` markers. -/
def goodChar (c : Char) : Bool :=
  pyIsLower c || pyIsDigit c || c == ' ' || c == ':' ||
    c == 'P' || c == 'A' || c == 'M'

/-- The `Page N of M` footer with digit strings `dn` and `dm`. -/
def pageFooter (dn dm : List Char) : List Char :=
  "Page ".toList ++ dn ++ " of ".toList ++ dm

/-- An `H:MM:SS AM/PM` timestamp with hour digits `hh`, minute digits
`m1 m2`, second digits `s1 s2` and marker `ap`. -/
def timeStamp (hh : List Char) (m1 m2 s1 s2 : Char) (ap : List Char) :
    List Char :=
  hh ++ ':' :: m1 :: m2 :: ':' :: s1 :: s2 :: ' ' :: ap

/-- Plain running text for the C3 generality statement: lowercase letters
and spaces, so ordinary multi-word text qualifies. -/
def textChar (c : Char) : Bool := pyIsLower c || c == ' '

/-- No two adjacent whitespace characters (the whitespace collapse is inert
on such a string). -/
def noTwoSpaces : List Char → Bool
  | [] => true
  | [_] => true
  | a :: b :: t => !(pyIsSpace a && pyIsSpace b) && noTwoSpaces (b :: t)

/-- The first character, if any, is not whitespace. -/
def headOk (s : List Char) : Bool :=
  match s with
  | [] => true
  | c :: _ => !pyIsSpace c

/-- The last character, if any, is not whitespace. -/
def lastOk (s : List Char) : Bool := headOk s.reverse

/-- The accumulator lemma behind C9: the loop appends exactly one probe
result per input identifier, whatever the `seen_hashes`/`unique_count`
state is. -/
theorem batchAux_eq (probe : String → DocumentInfo) (doc_ids : List String)
    (results : List DocumentInfo) (seen_hashes : List String) (unique_count : Nat) :
    batchAux probe doc_ids results seen_hashes unique_count =
      results ++ doc_ids.map probe := by
  induction doc_ids generalizing results seen_hashes unique_count with
  | nil => simp [batchAux]
  | cons doc_id rest ih =>
    simp only [batchAux]
    split
    · split
      · split
        · rw [ih]; simp
        · rw [ih]; simp
      · rw [ih]; simp
    · rw [ih]; simp

/-- C5: the "alternating_pattern" flag computed by structure analysis is
`true` for every input of length at least 2 and `false` for inputs of length
0 or 1; the check is a total function of the input string (being a Lean
function, it is total and side-effect-free by construction). -/
theorem alternating_pattern_trivial (doc_id : List Char) :
    (analyze_patterns doc_id).alternating_pattern = decide (2 ≤ doc_id.length) := by
  simp only [analyze_patterns, check_alternating_pattern]
  by_cases h : doc_id.length < 2
  · simp [h, Nat.not_le.mpr h]
  · simp [h, Nat.le_of_not_lt h]

/-- Witness for `alternating_pattern_trivial` at concrete inputs of length 2
and of length 1. -/
theorem alternating_pattern_trivial_witness :
    (analyze_patterns ['a', '1']).alternating_pattern = decide (2 ≤ ([ 'a', '1'] : List Char).length) ∧
    (analyze_patterns ['a']).alternating_pattern = decide (2 ≤ (['a'] : List Char).length) :=
  ⟨alternating_pattern_trivial ['a', '1'], alternating_pattern_trivial ['a']⟩

/-- C8: structure analysis of the empty string returns length 0, an empty
character histogram, all boolean flags `false` (including starts-with-digit
and alphanumeric-only, since Python `"".isalnum()` is `False`), and empty
pattern lists; it does not fail. -/
theorem analyze_id_structure_empty :
    analyze_id_structure [] =
      { length := 0
        character_counts := []
        has_hyphens := false
        has_underscores := false
        alphanumeric_only := false
        starts_with_digit := false
        pattern_analysis :=
          { consecutive_digits := []
            consecutive_letters := []
            special_chars := []
            alternating_pattern := false } } := by
  rfl

/-- C9: batch probing returns exactly one result per input identifier, in
input order — the result list is literally the map of the probe function over
the inputs, so every requested identifier is probed and previously seen
fingerprints never cause an early exit or a skipped probe; when the probe
stamps each result with its identifier (as `test_document_access` does by
construction of `DocumentInfo(id=doc_id, ...)`), result `k` carries input
identifier `k`. -/
theorem batch_test_documents_maps_inputs (probe : String → DocumentInfo)
    (doc_ids : List String) :
    batch_test_documents probe doc_ids = doc_ids.map probe ∧
    ((∀ i, (probe i).id = i) →
      (batch_test_documents probe doc_ids).map (fun r => r.id) = doc_ids) := by
  constructor
  · simpa using batchAux_eq probe doc_ids [] [] 0
  · intro hid
    have h := batchAux_eq probe doc_ids [] [] 0
    simp only [batch_test_documents, h, List.nil_append, List.map_map]
    rw [show ((fun r => DocumentInfo.id r) ∘ probe) = id from funext fun i => hid i,
      List.map_id]

/-- Witness for `batch_test_documents_maps_inputs` on a concrete two-element
batch with an identifier-stamping probe. -/
theorem batch_test_documents_maps_inputs_witness :
    (batch_test_documents
        (fun i => { id := i, url := "", accessible := false })
        ["a", "b"]).map (fun r => r.id) = ["a", "b"] :=
  (batch_test_documents_maps_inputs
      (fun i => { id := i, url := "", accessible := false })
      ["a", "b"]).2 (fun _ => rfl)

/-- C4: the uniqueness report satisfies
`unique_count + duplicate_count = accessible_count`, its rate lies in `[0,1]`,
and the rate is 0 (a number, not an error) whenever `accessible_count = 0`. -/
theorem analyze_uniqueness_invariants (results : List DocumentInfo) :
    ((analyze_uniqueness results).unique_count : Int) +
        (analyze_uniqueness results).duplicate_count =
      ((analyze_uniqueness results).accessible_count : Int) ∧
    0 ≤ (analyze_uniqueness results).uniqueness_rate ∧
    (analyze_uniqueness results).uniqueness_rate ≤ 1 ∧
    ((analyze_uniqueness results).accessible_count = 0 →
      (analyze_uniqueness results).uniqueness_rate = 0) := by
  unfold analyze_uniqueness
  set docs := results.filter (fun r => r.accessible) with hdocs
  by_cases hempty : docs.isEmpty
  · simp [hempty]
  · have hne : docs ≠ [] := by
      intro h; rw [h] at hempty; exact hempty rfl
    have hpos : 0 < docs.length := List.length_pos.mpr hne
    have hle : ((docs.filterMap (fun r => r.content_hash)).dedup).length ≤ docs.length := by
      calc ((docs.filterMap (fun r => r.content_hash)).dedup).length
          ≤ (docs.filterMap (fun r => r.content_hash)).length :=
            (List.dedup_sublist _).length_le
        _ ≤ docs.length := List.length_filterMap_le _ _
    simp only [hempty, if_false, Bool.false_eq_true]
    refine ⟨by ring, ?_, ?_, ?_⟩
    · positivity
    · rw [div_le_one (by exact_mod_cast hpos)]
      exact_mod_cast hle
    · intro h
      omega

/-- Witness for `analyze_uniqueness_invariants` on a concrete batch with one
accessible and one inaccessible result, also discharging the
`accessible_count = 0` implication on the empty batch. -/
theorem analyze_uniqueness_invariants_witness :
    (((analyze_uniqueness
          [{ id := "a", url := "", accessible := true, content_hash := some "h" },
           { id := "b", url := "", accessible := false }]).unique_count : Int) +
        (analyze_uniqueness
          [{ id := "a", url := "", accessible := true, content_hash := some "h" },
           { id := "b", url := "", accessible := false }]).duplicate_count =
      ((analyze_uniqueness
          [{ id := "a", url := "", accessible := true, content_hash := some "h" },
           { id := "b", url := "", accessible := false }]).accessible_count : Int)) ∧
    (analyze_uniqueness ([] : List DocumentInfo)).uniqueness_rate = 0 :=
  ⟨(analyze_uniqueness_invariants _).1,
   (analyze_uniqueness_invariants []).2.2.2 rfl⟩

/-- C6: on a batch with no accessible result (in particular the empty batch),
`analyze_uniqueness` does not fail and returns total count equal to the input
length, zero accessible/unique/duplicate counts, rate 0.0 and an empty list
of unique fingerprints. -/
theorem analyze_uniqueness_all_inaccessible (results : List DocumentInfo)
    (h : ∀ r ∈ results, r.accessible = false) :
    analyze_uniqueness results =
      { total_tested := results.length
        accessible_count := 0
        unique_count := 0
        duplicate_count := 0
        uniqueness_rate := 0
        unique_hashes := [] } := by
  unfold analyze_uniqueness
  have hfilter : results.filter (fun r => r.accessible) = [] := by
    rw [List.filter_eq_nil_iff]
    intro r hr
    simp [h r hr]
  simp [hfilter]

/-- Witness for `analyze_uniqueness_all_inaccessible` on the empty batch and
on a concrete all-inaccessible batch. -/
theorem analyze_uniqueness_all_inaccessible_witness :
    analyze_uniqueness [] =
      { total_tested := 0
        accessible_count := 0
        unique_count := 0
        duplicate_count := 0
        uniqueness_rate := 0
        unique_hashes := [] } ∧
    analyze_uniqueness [{ id := "a", url := "", accessible := false }] =
      { total_tested := 1
        accessible_count := 0
        unique_count := 0
        duplicate_count := 0
        uniqueness_rate := 0
        unique_hashes := [] } :=
  ⟨analyze_uniqueness_all_inaccessible [] (by intro r hr; simp at hr),
   analyze_uniqueness_all_inaccessible _ (by
     intro r hr
     rw [List.mem_singleton] at hr
     subst hr
     rfl)⟩

/-- In both branches of `analyze_uniqueness`, the accessible count is the
number of accessible results. -/
theorem analyze_uniqueness_accessible_count (results : List DocumentInfo) :
    (analyze_uniqueness results).accessible_count =
      (results.filter (fun r => r.accessible)).length := by
  unfold analyze_uniqueness
  by_cases hempty : (results.filter (fun r => r.accessible)).isEmpty
  · simp [hempty, List.isEmpty_iff.mp hempty]
  · simp [hempty]

/-- In both branches of `analyze_uniqueness`, the unique count is the number
of distinct fingerprints among accessible results that carry one. -/
theorem analyze_uniqueness_unique_count (results : List DocumentInfo) :
    (analyze_uniqueness results).unique_count =
      (((results.filter (fun r => r.accessible)).filterMap
          (fun r => r.content_hash)).dedup).length := by
  unfold analyze_uniqueness
  by_cases hempty : (results.filter (fun r => r.accessible)).isEmpty
  · simp [hempty, List.isEmpty_iff.mp hempty]
  · simp [hempty]

/-- In both branches of `analyze_uniqueness`, the duplicate count is the
accessible count minus the unique count. -/
theorem analyze_uniqueness_duplicate_count (results : List DocumentInfo) :
    (analyze_uniqueness results).duplicate_count =
      ((results.filter (fun r => r.accessible)).length : Int) -
        (((results.filter (fun r => r.accessible)).filterMap
            (fun r => r.content_hash)).dedup).length := by
  unfold analyze_uniqueness
  by_cases hempty : (results.filter (fun r => r.accessible)).isEmpty
  · simp [hempty, List.isEmpty_iff.mp hempty]
  · simp [hempty]

/-- C10: an accessible result with no fingerprint (`content_hash = none`)
counts toward `accessible_count` but never toward `unique_count`, hence
always toward `duplicate_count`: appending such a result to any batch raises
the accessible count by one, leaves the unique count unchanged and raises the
duplicate count by one; and the singleton batch made of such a result yields
unique count 0, duplicate count 1 and rate 0.0. -/
theorem analyze_uniqueness_hashless_accessible (results : List DocumentInfo)
    (d : DocumentInfo) (hacc : d.accessible = true) (hhash : d.content_hash = none) :
    (analyze_uniqueness (results ++ [d])).accessible_count =
      (analyze_uniqueness results).accessible_count + 1 ∧
    (analyze_uniqueness (results ++ [d])).unique_count =
      (analyze_uniqueness results).unique_count ∧
    (analyze_uniqueness (results ++ [d])).duplicate_count =
      (analyze_uniqueness results).duplicate_count + 1 ∧
    analyze_uniqueness [d] =
      { total_tested := 1
        accessible_count := 1
        unique_count := 0
        duplicate_count := 1
        uniqueness_rate := 0
        unique_hashes := [] } := by
  have hfa : (results ++ [d]).filter (fun r => r.accessible) =
      results.filter (fun r => r.accessible) ++ [d] := by
    rw [List.filter_append]
    simp [hacc]
  have hfm : ((results.filter (fun r => r.accessible) ++ [d]).filterMap
        (fun r => r.content_hash)) =
      (results.filter (fun r => r.accessible)).filterMap (fun r => r.content_hash) := by
    rw [List.filterMap_append]
    simp [hhash]
  refine ⟨?_, ?_, ?_, ?_⟩
  · rw [analyze_uniqueness_accessible_count, analyze_uniqueness_accessible_count, hfa]
    simp
  · rw [analyze_uniqueness_unique_count, analyze_uniqueness_unique_count, hfa, hfm]
  · rw [analyze_uniqueness_duplicate_count, analyze_uniqueness_duplicate_count, hfa, hfm]
    simp
    ring
  · unfold analyze_uniqueness
    simp [hacc, hhash]

/-- Witness for `analyze_uniqueness_hashless_accessible` on the empty batch
and a concrete accessible, hashless result. -/
theorem analyze_uniqueness_hashless_accessible_witness :
    analyze_uniqueness [{ id := "a", url := "", accessible := true }] =
      { total_tested := 1
        accessible_count := 1
        unique_count := 0
        duplicate_count := 1
        uniqueness_rate := 0
        unique_hashes := [] } :=
  (analyze_uniqueness_hashless_accessible []
    { id := "a", url := "", accessible := true } rfl rfl).2.2.2

/-- Reading a valid index of a list yields a member of the list. -/
theorem getD_mem_of_lt (l : List Char) (n : Nat) (d : Char)
    (h : n < l.length) : l.getD n d ∈ l := by
  rw [List.getD_eq_getElem?_getD, List.getElem?_eq_getElem h]
  exact List.getElem_mem h

/-- A `none` result of the rightmost-position scan means no character
satisfies the predicate. -/
theorem lastPosSuchThat_eq_none (p : Char → Bool) (s : List Char)
    (h : lastPosSuchThat p s = none) : ∀ x ∈ s, p x = false := by
  induction s with
  | nil => intro x hx; simp at hx
  | cons c cs ih =>
    intro x hx
    simp only [lastPosSuchThat] at h
    rcases hq : lastPosSuchThat p cs with _ | q
    · rw [hq] at h
      rcases List.mem_cons.mp hx with hx | hx
      · subst hx
        by_contra hpc
        simp [eq_true_of_ne_false hpc] at h
      · exact ih hq x hx
    · rw [hq] at h
      simp at h

/-- The rightmost-position scan returns a valid index whose character
satisfies the predicate and past which no character does. -/
theorem lastPosSuchThat_spec (p : Char → Bool) (s : List Char) (q : Nat)
    (h : lastPosSuchThat p s = some q) :
    q < s.length ∧ p (s.getD q ' ') = true ∧
      ∀ j, q < j → j < s.length → p (s.getD j ' ') = false := by
  induction s generalizing q with
  | nil => simp [lastPosSuchThat] at h
  | cons c cs ih =>
    simp only [lastPosSuchThat] at h
    rcases hq : lastPosSuchThat p cs with _ | q'
    · rw [hq] at h
      by_cases hpc : p c
      · simp only [hpc, if_true] at h
        obtain rfl : (0 : Nat) = q := Option.some.inj h
        refine ⟨by simp, by simpa using hpc, ?_⟩
        intro j hj0 hjlen
        obtain ⟨j', rfl⟩ : ∃ j', j = j' + 1 := ⟨j - 1, by omega⟩
        rw [List.getD_cons_succ]
        have hj' : j' < cs.length := by simpa using hjlen
        exact lastPosSuchThat_eq_none p cs hq _ (getD_mem_of_lt cs j' ' ' hj')
      · simp [hpc] at h
    · rw [hq] at h
      obtain rfl : q' + 1 = q := Option.some.inj h
      obtain ⟨hlt, hat, hafter⟩ := ih q' hq
      refine ⟨by simpa using hlt, by simpa using hat, ?_⟩
      intro j hj hjlen
      obtain ⟨j', rfl⟩ : ∃ j', j = j' + 1 := ⟨j - 1, by omega⟩
      rw [List.getD_cons_succ]
      exact hafter j' (by omega) (by simpa using hjlen)

/-- Substituting one character at position `p` leaves every other position of
the string unchanged. -/
theorem getD_substitute (s : List Char) (p : Nat) (hp : p < s.length) (x : Char)
    (j : Nat) (hj : j ≠ p) :
    (s.take p ++ [x] ++ s.drop (p + 1)).getD j ' ' = s.getD j ' ' := by
  have htake : (s.take p).length = p := by
    rw [List.length_take]
    omega
  have h1 : (s.take p ++ [x]).length = p + 1 := by
    simp [htake]
  rw [List.getD_eq_getElem?_getD, List.getD_eq_getElem?_getD]
  rcases Nat.lt_or_ge j p with hjp | hjp
  · rw [List.getElem?_append, if_pos (by rw [h1]; omega),
      List.getElem?_append, if_pos (by rw [htake]; omega),
      List.getElem?_take, if_pos hjp]
  · rw [List.getElem?_append_right (by rw [h1]; omega), List.getElem?_drop, h1]
    have hidx : p + 1 + (j - (p + 1)) = j := by omega
    rw [hidx]

/-- C7: with an empty strategy list the mutation engine returns the empty
candidate list, for every seed. -/
theorem generate_incremented_ids_empty_strategies (base_id : List Char) :
    generate_incremented_ids base_id (some []) = some [] := by
  simp [generate_incremented_ids, gatherStrategies, List.dedup_nil]

/-- Witness for `generate_incremented_ids_empty_strategies` at a concrete
seed. -/
theorem generate_incremented_ids_empty_strategies_witness :
    generate_incremented_ids ['a', '1'] (some []) = some [] :=
  generate_incremented_ids_empty_strategies ['a', '1']

/-- C1 (failing-input evaluation): with the `pattern_based` strategy the
mutation engine raises on any seed shorter than 5 characters — the empty
seed and `"abc"` hit `ValueError: range() arg 3 must not be zero` inside
`_test_length_variations`, because `len(base_id) // 5 == 0` is used as a
`range` step — while a 5-character seed succeeds.  The claim that
`generate_incremented_ids` never raises for any seed and any strategy list
is therefore violated by the code. -/
theorem generate_incremented_ids_raises_on_short_seed :
    generate_incremented_ids [] (some ["pattern_based"]) = none ∧
    generate_incremented_ids ['a', 'b', 'c'] (some ["pattern_based"]) = none ∧
    (generate_incremented_ids ['a', 'b', 'c', 'd', 'e']
        (some ["pattern_based"])).isSome = true := by
  decide

/-- C2 (counterexample): the claim that every `last_digit` candidate differs
from the seed in exactly one position fails at the seed `"a1"`: the offset-10
increment wraps the digit back onto itself, so the candidate list contains
`"a1"` itself, which differs from the seed in zero positions. -/
theorem last_digit_candidate_can_equal_seed :
    ['a', '1'] ∈ (generate_incremented_ids ['a', '1'] (some ["last_digit"])).getD [] ∧
    differsInExactlyOnePos ['a', '1'] ['a', '1'] = false := by
  decide

/-- C2 (amended): for every non-empty seed `s`, `mutate(s, {"last_digit"})`
succeeds and returns at most 10 candidates, and every candidate has the
length of `s` and agrees with `s` at every position other than the position
of the rightmost digit of `s` (that position being a valid digit position
past which `s` has no digit); equivalently each candidate differs from `s`
in at most one position, namely the rightmost digit — the offset-10
candidate reproduces `s` itself, which is why "exactly one" fails. -/
theorem last_digit_candidates_differ_only_at_rightmost_digit (s : List Char)
    (_hs : s ≠ []) :
    (generate_incremented_ids s (some ["last_digit"])).isSome = true ∧
    ∀ r, generate_incremented_ids s (some ["last_digit"]) = some r →
      r.length ≤ 10 ∧
      ∀ c ∈ r, ∃ p, lastPosSuchThat pyIsDigit s = some p ∧
        p < s.length ∧ pyIsDigit (s.getD p ' ') = true ∧
        (∀ j, p < j → j < s.length → pyIsDigit (s.getD j ' ') = false) ∧
        c.length = s.length ∧
        ∀ j, j ≠ p → c.getD j ' ' = s.getD j ' ' := by
  have hgen : generate_incremented_ids s (some ["last_digit"]) =
      some ((increment_last_digit s 10).dedup) := by
    simp [generate_incremented_ids, gatherStrategies, strategyResults]
  refine ⟨by rw [hgen]; rfl, ?_⟩
  intro r hr
  rw [hgen] at hr
  obtain rfl : (increment_last_digit s 10).dedup = r := Option.some.inj hr
  constructor
  · calc (increment_last_digit s 10).dedup.length
        ≤ (increment_last_digit s 10).length := (List.dedup_sublist _).length_le
      _ ≤ 10 := by
          unfold increment_last_digit
          rcases lastPosSuchThat pyIsDigit s with _ | p <;> simp
  · intro c hc
    have hc' : c ∈ increment_last_digit s 10 := (List.dedup_sublist _).mem hc
    unfold increment_last_digit at hc'
    rcases hq : lastPosSuchThat pyIsDigit s with _ | p
    · rw [hq] at hc'
      simp at hc'
    · rw [hq] at hc'
      simp only [List.mem_map, List.mem_range] at hc'
      obtain ⟨i0, _, rfl⟩ := hc'
      obtain ⟨hp, hpd, hpafter⟩ := lastPosSuchThat_spec pyIsDigit s p hq
      refine ⟨p, rfl, hp, hpd, hpafter, ?_, ?_⟩
      · have htake : (s.take p).length = p := by
          rw [List.length_take]
          omega
        simp [htake, List.length_drop]
        omega
      · intro j hj
        exact getD_substitute s p hp _ j hj

/-- Witness for `last_digit_candidates_differ_only_at_rightmost_digit` at the
concrete non-empty seed `"a1"`. -/
theorem last_digit_candidates_differ_only_at_rightmost_digit_witness :
    (generate_incremented_ids ['a', '1'] (some ["last_digit"])).isSome = true :=
  (last_digit_candidates_differ_only_at_rightmost_digit ['a', '1'] (by decide)).1

/-- Characters with equal code points are equal. -/
theorem char_eq_of_toNat_eq {a b : Char} (h : a.toNat = b.toNat) : a = b :=
  Char.eq_of_val_eq (UInt32.ext h)

/-- A scan with exhausted input yields the empty list at any fuel. -/
theorem scanAux_nil (m : List Char → Option (List Char)) (f : Nat) :
    scanAux m f [] = [] := by
  cases f <;> rfl

/-- A scan whose matcher fails on every string over a character set leaves
any string over that set unchanged, at any fuel. -/
theorem scanAux_id (m : List Char → Option (List Char)) (P : Char → Bool)
    (hm : ∀ t : List Char, (∀ c ∈ t, P c = true) → m t = none) :
    ∀ (f : Nat) (s : List Char), (∀ c ∈ s, P c = true) → scanAux m f s = s := by
  intro f
  induction f with
  | zero => intro s _; rfl
  | succ f ih =>
    intro s hs
    cases s with
    | nil => rfl
    | cons c cs =>
      show (match m (c :: cs) with
        | some rest => scanAux m f rest
        | none => c :: scanAux m f cs) = c :: cs
      rw [hm _ hs]
      exact congrArg (c :: ·) (ih cs (fun x hx => hs x (List.mem_cons_of_mem c hx)))

/-- A scan skips over a prefix on which the matcher never fires (at any
suffix of the prefix, looking into the rest of the input), continuing on the
rest with correspondingly reduced fuel. -/
theorem scanAux_append_none (m : List Char → Option (List Char)) (Y : List Char) :
    ∀ (X : List Char) (f : Nat),
      (∀ u v, u ++ v = X → v ≠ [] → m (v ++ Y) = none) →
      scanAux m f (X ++ Y) = X ++ scanAux m (f - X.length) Y := by
  intro X
  induction X with
  | nil => intro f _; simp
  | cons x X' ih =>
    intro f hnone
    cases f with
    | zero =>
      rw [scanAux, Nat.zero_sub]
      cases Y with
      | nil => simp [scanAux_nil]
      | cons y Y' => rfl
    | succ f' =>
      have hx : m ((x :: X') ++ Y) = none := hnone [] (x :: X') rfl (by simp)
      show (match m (x :: (X' ++ Y)) with
        | some rest => scanAux m f' rest
        | none => x :: scanAux m f' (X' ++ Y)) = (x :: X') ++ scanAux m (f' + 1 - (X'.length + 1)) Y
      rw [show x :: (X' ++ Y) = (x :: X') ++ Y from rfl, hx]
      have ih' := ih f' (fun u v huv hv => hnone (x :: u) v (by rw [← huv]; rfl) hv)
      rw [ih']
      simp [Nat.succ_sub_succ]

/-- A scan whose matcher fires at the head of the input continues after the
match with one unit of fuel spent. -/
theorem scanAux_head_match (m : List Char → Option (List Char)) (c : Char)
    (cs r : List Char) (f : Nat) (h : m (c :: cs) = some r) :
    scanAux m (f + 1) (c :: cs) = scanAux m f r := by
  show (match m (c :: cs) with
    | some rest => scanAux m f rest
    | none => c :: scanAux m f cs) = scanAux m f r
  rw [h]

/-- Every character of a matched literal occurs in the input. -/
theorem matchLit_mem (lit : List Char) :
    ∀ (s r : List Char), matchLit lit s = some r → ∀ l ∈ lit, l ∈ s := by
  induction lit with
  | nil => intro s r _ l hl; simp at hl
  | cons l0 ls ih =>
    intro s r h l hl
    cases s with
    | nil => simp [matchLit] at h
    | cons c cs =>
      rw [matchLit] at h
      by_cases hc : l0 == c
      · rw [if_pos hc] at h
        rcases List.mem_cons.mp hl with hl | hl
        · subst hl
          rw [beq_iff_eq] at hc
          rw [hc]
          exact List.mem_cons_self c cs
        · exact List.mem_cons_of_mem c (ih cs r h l hl)
      · rw [if_neg hc] at h
        simp at h

/-- A matched non-empty literal pins down the head of the input. -/
theorem matchLit_cons_inv (l0 : Char) (ls s r : List Char)
    (h : matchLit (l0 :: ls) s = some r) : ∃ t, s = l0 :: t := by
  cases s with
  | nil => simp [matchLit] at h
  | cons c cs =>
    rw [matchLit] at h
    by_cases hc : l0 == c
    · rw [beq_iff_eq] at hc
      exact ⟨cs, by rw [hc]⟩
    · rw [if_neg hc] at h
      simp at h

/-- A literal matches its own append, leaving the appended rest. -/
theorem matchLit_self_append (lit : List Char) :
    ∀ t : List Char, matchLit lit (lit ++ t) = some t := by
  induction lit with
  | nil => intro t; rfl
  | cons l ls ih =>
    intro t
    show (if l == l then matchLit ls (ls ++ t) else none) = some t
    rw [if_pos (beq_self_eq_true l), ih t]

/-- `span` splits an append exactly at the boundary where the predicate
first fails. -/
theorem span_append_sat (p : Char → Bool) (xs rest : List Char)
    (hxs : ∀ c ∈ xs, p c = true) (hrest : ∀ r ∈ rest.head?, p r = false) :
    (xs ++ rest).span p = (xs, rest) := by
  rw [List.span_eq_take_drop]
  induction xs with
  | nil =>
    cases rest with
    | nil => rfl
    | cons r t =>
      have hr : p r = false := hrest r rfl
      simp [List.takeWhile, List.dropWhile, hr]
  | cons x xs' ih =>
    have hx : p x = true := hxs x (List.mem_cons_self x xs')
    have ih' := ih (fun c hc => hxs c (List.mem_cons_of_mem x hc))
    simp only [List.cons_append, List.takeWhile_cons, List.dropWhile_cons, hx, if_true]
    have h1 : (xs' ++ rest).takeWhile p = xs' := congrArg Prod.fst ih'
    have h2 : (xs' ++ rest).dropWhile p = rest := congrArg Prod.snd ih'
    rw [h1, h2]

/-- Code-point characterization of `goodChar`. -/
theorem goodChar_toNat {c : Char} (h : goodChar c = true) :
    (97 ≤ c.toNat ∧ c.toNat ≤ 122) ∨ (48 ≤ c.toNat ∧ c.toNat ≤ 57) ∨
      c.toNat = 32 ∨ c.toNat = 58 ∨ c.toNat = 80 ∨ c.toNat = 65 ∨ c.toNat = 77 := by
  simp only [goodChar, pyIsLower, pyIsDigit, Bool.or_eq_true, Bool.and_eq_true,
    decide_eq_true_eq, beq_iff_eq] at h
  rcases h with ((((((h | h) | h) | h) | h) | h) | h)
  · exact Or.inl h
  · exact Or.inr (Or.inl h)
  · subst h; right; right; left; rfl
  · subst h; right; right; right; left; rfl
  · subst h; right; right; right; right; left; rfl
  · subst h; right; right; right; right; right; left; rfl
  · subst h; right; right; right; right; right; right; rfl

/-- Lowercase letters lie in the `goodChar` set. -/
theorem pyIsLower_goodChar {c : Char} (h : pyIsLower c = true) : goodChar c = true := by
  simp [goodChar, h]

/-- No `goodChar` character matches `'<'` up to ASCII case. -/
theorem lowerEq_lt_false {c : Char} (h : goodChar c = true) : lowerEq '<' c = false := by
  have ht := goodChar_toNat h
  have h60 : c.toNat ≠ 60 := by omega
  simp only [lowerEq, Bool.or_eq_false_iff, Bool.and_eq_false_iff]
  refine ⟨⟨?_, ?_⟩, ?_⟩
  · rw [beq_eq_false_iff_ne]
    intro hc
    exact h60 (congrArg Char.toNat hc.symm)
  · left; rfl
  · right
    simp only [beq_eq_false_iff_ne]
    show ('<').toNat ≠ c.toNat + 32
    intro habs
    have : c.toNat = 28 := by
      have : ('<').toNat = 60 := rfl
      omega
    omega

/-- No `goodChar` character equals `'<'`. -/
theorem beq_lt_false {c : Char} (h : goodChar c = true) : (c == '<') = false := by
  have ht := goodChar_toNat h
  rw [beq_eq_false_iff_ne]
  intro hc
  have : c.toNat = 60 := congrArg Char.toNat hc
  omega

/-- A matcher headed by a literal containing a character outside the
`goodChar` set fails on any string over that set. -/
theorem matchLit_none_of_good (lit : List Char) (w : Char) (hw : w ∈ lit)
    (hgw : goodChar w = false) (t : List Char)
    (ht : ∀ c ∈ t, goodChar c = true) : matchLit lit t = none := by
  cases h : matchLit lit t with
  | none => rfl
  | some r =>
    have : goodChar w = true := ht w (matchLit_mem lit t r h w hw)
    rw [hgw] at this
    exact absurd this (by simp)

/-- The tag matcher fails on any string over the `goodChar` set (no `'<'`
can occur). -/
theorem matchTag_none (name : List Char) (t : List Char)
    (ht : ∀ c ∈ t, goodChar c = true) : matchTag name t = none := by
  unfold matchTag
  cases t with
  | nil =>
    rfl
  | cons c cs =>
    have : matchLitCI ('<' :: name) (c :: cs) = none := by
      show (if lowerEq '<' c then matchLitCI name cs else none) = none
      rw [lowerEq_lt_false (ht c (List.mem_cons_self c cs))]
      rfl
    rw [this]
    rfl

/-- The angle-bracket matcher fails on any string over the `goodChar` set. -/
theorem matchAngle_none (t : List Char) (ht : ∀ c ∈ t, goodChar c = true) :
    matchAngle t = none := by
  cases t with
  | nil => rfl
  | cons c cs =>
    show (if c == '<' then _ else none) = none
    rw [beq_lt_false (ht c (List.mem_cons_self c cs))]
    simp

/-- The title search fails on any string over the `goodChar` set. -/
theorem titleScan_none (s : List Char) (hs : ∀ c ∈ s, goodChar c = true) :
    titleScan s = none := by
  induction s with
  | nil => rfl
  | cons c cs ih =>
    have hlt : matchLitCI ['<', 't', 'i', 't', 'l', 'e', '>'] (c :: cs) = none := by
      show (if lowerEq '<' c then _ else none) = none
      rw [lowerEq_lt_false (hs c (List.mem_cons_self c cs))]
      simp
    show (match (matchLitCI ['<', 't', 'i', 't', 'l', 'e', '>'] (c :: cs)).bind titleGroup with
      | some g => some g
      | none => titleScan cs) = none
    rw [hlt]
    exact ih (fun x hx => hs x (List.mem_cons_of_mem c hx))

/-- Lowercase letters are not digits. -/
theorem pyIsLower_not_digit {c : Char} (h : pyIsLower c = true) :
    pyIsDigit c = false := by
  simp only [pyIsLower, Bool.and_eq_true, decide_eq_true_eq] at h
  simp only [pyIsDigit, Bool.and_eq_false_iff, decide_eq_false_iff_not]
  omega

/-- A character whose code point avoids all whitespace code points is not
whitespace. -/
theorem pyIsSpace_eq_false {c : Char}
    (h : c.toNat ≠ 32 ∧ c.toNat ≠ 9 ∧ c.toNat ≠ 10 ∧ c.toNat ≠ 13 ∧
      c.toNat ≠ 11 ∧ c.toNat ≠ 12) : pyIsSpace c = false := by
  simp only [pyIsSpace, Bool.or_eq_false_iff, beq_eq_false_iff_ne]
  refine ⟨⟨⟨⟨⟨?_, ?_⟩, ?_⟩, ?_⟩, ?_⟩, ?_⟩
  · exact fun heq => h.1 (congrArg Char.toNat heq)
  · exact fun heq => h.2.1 (congrArg Char.toNat heq)
  · exact fun heq => h.2.2.1 (congrArg Char.toNat heq)
  · exact fun heq => h.2.2.2.1 (congrArg Char.toNat heq)
  · exact h.2.2.2.2.1
  · exact h.2.2.2.2.2

/-- Lowercase letters are not whitespace. -/
theorem pyIsLower_not_space {c : Char} (h : pyIsLower c = true) :
    pyIsSpace c = false := by
  simp only [pyIsLower, Bool.and_eq_true, decide_eq_true_eq] at h
  exact pyIsSpace_eq_false (by omega)

/-- Digits are not whitespace. -/
theorem pyIsDigit_not_space {c : Char} (h : pyIsDigit c = true) :
    pyIsSpace c = false := by
  simp only [pyIsDigit, Bool.and_eq_true, decide_eq_true_eq] at h
  exact pyIsSpace_eq_false (by omega)

/-- Digits lie in the `goodChar` set. -/
theorem pyIsDigit_goodChar {c : Char} (h : pyIsDigit c = true) :
    goodChar c = true := by
  simp [goodChar, h]

/-- A whitespace `goodChar` character is the plain space. -/
theorem goodChar_space {c : Char} (hg : goodChar c = true)
    (hs : pyIsSpace c = true) : c = ' ' := by
  have ht := goodChar_toNat hg
  simp only [pyIsSpace, Bool.or_eq_true, beq_iff_eq] at hs
  rcases hs with ((((hs | hs) | hs) | hs) | hs) | hs
  · exact hs
  · rw [hs] at hg; exact absurd hg (by decide)
  · rw [hs] at hg; exact absurd hg (by decide)
  · rw [hs] at hg; exact absurd hg (by decide)
  · omega
  · omega

/-- Lowercase letters are plain text characters. -/
theorem pyIsLower_textChar {c : Char} (h : pyIsLower c = true) :
    textChar c = true := by
  simp [textChar, h]

/-- Plain text characters are not digits. -/
theorem textChar_not_digit {c : Char} (h : textChar c = true) :
    pyIsDigit c = false := by
  simp only [textChar, Bool.or_eq_true, beq_iff_eq] at h
  rcases h with h | h
  · exact pyIsLower_not_digit h
  · subst h
    decide

/-- A whitespace plain text character is the plain space. -/
theorem textChar_space {c : Char} (h : textChar c = true)
    (hs : pyIsSpace c = true) : c = ' ' := by
  simp only [textChar, Bool.or_eq_true, beq_iff_eq] at h
  rcases h with h | h
  · rw [pyIsLower_not_space h] at hs
    exact absurd hs (by simp)
  · exact h

/-- Plain text characters lie in the `goodChar` set. -/
theorem textChar_goodChar {c : Char} (h : textChar c = true) :
    goodChar c = true := by
  simp only [textChar, Bool.or_eq_true, beq_iff_eq] at h
  rcases h with h | h
  · exact pyIsLower_goodChar h
  · subst h
    decide

/-- Plain text characters are not colons. -/
theorem textChar_ne_colon {c : Char} (h : textChar c = true) :
    (c == ':') = false := by
  simp only [textChar, Bool.or_eq_true, beq_iff_eq] at h
  rw [beq_eq_false_iff_ne]
  intro heq
  rcases h with h | h
  · rw [heq] at h
    exact absurd h (by decide)
  · rw [heq] at h
    exact absurd h (by decide)

/-- Plain text characters are not the uppercase `'P'`. -/
theorem textChar_ne_P {c : Char} (h : textChar c = true) :
    ('P' == c) = false := by
  simp only [textChar, Bool.or_eq_true, beq_iff_eq] at h
  rw [beq_eq_false_iff_ne]
  intro heq
  rcases h with h | h
  · rw [← heq] at h
    exact absurd h (by decide)
  · rw [← heq] at h
    exact absurd h (by decide)

/-- A string without two adjacent whitespace characters satisfies the
adjacent-whitespace chain. -/
theorem noTwoSpaces_chain (s : List Char) (h : noTwoSpaces s = true) :
    List.Chain' (fun a b => pyIsSpace a = false ∨ pyIsSpace b = false) s := by
  induction s with
  | nil => exact List.chain'_nil
  | cons a t ih =>
    cases t with
    | nil => exact List.chain'_singleton a
    | cons b t' =>
      have h' : (!(pyIsSpace a && pyIsSpace b) && noTwoSpaces (b :: t')) = true := h
      rw [Bool.and_eq_true] at h'
      rw [List.chain'_cons']
      constructor
      · intro x hx
        have hxb : b = x := Option.some.inj hx
        subst hxb
        by_cases hsa : pyIsSpace a = true
        · right
          rcases hb : pyIsSpace b with _ | _
          · rfl
          · rw [hsa, hb] at h'
            exact absurd h'.1 (by simp)
        · left
          simpa using hsa
      · exact ih h'.2

/-- A string whose last character is not whitespace reports that through
`lastOk`. -/
theorem lastOk_getLast (s : List Char) (h : lastOk s = true) :
    ∀ c, s.getLast? = some c → pyIsSpace c = false := by
  intro c hc
  unfold lastOk at h
  cases hr : s.reverse with
  | nil =>
    rw [← List.head?_reverse, hr] at hc
    simp at hc
  | cons c' t' =>
    rw [hr] at h
    rw [← List.head?_reverse, hr] at hc
    have : c' = c := Option.some.inj hc
    subst this
    simpa [headOk] using h

/-- `matchVarDocs` fails on strings over `goodChar` (no `'D'`). -/
theorem matchVarDocs_none (t : List Char) (ht : ∀ c ∈ t, goodChar c = true) :
    matchVarDocs t = none := by
  unfold matchVarDocs
  rw [matchLit_none_of_good "var DOCS_timing".toList 'D' (by decide) (by decide) t ht]
  rfl

/-- `matchNonce` fails on strings over `goodChar` (no `'='`). -/
theorem matchNonce_none (t : List Char) (ht : ∀ c ∈ t, goodChar c = true) :
    matchNonce t = none := by
  unfold matchNonce
  rw [matchLit_none_of_good "nonce=".toList '=' (by decide) (by decide) t ht]
  rfl

/-- `matchSid` fails on strings over `goodChar` (no `'='`). -/
theorem matchSid_none (t : List Char) (ht : ∀ c ∈ t, goodChar c = true) :
    matchSid t = none := by
  unfold matchSid
  rw [matchLit_none_of_good "sid=".toList '=' (by decide) (by decide) t ht]
  rfl

/-- `matchLoading` fails on strings over `goodChar` (no `'L'`). -/
theorem matchLoading_none (t : List Char) (ht : ∀ c ∈ t, goodChar c = true) :
    matchLoading t = none := by
  unfold matchLoading
  exact matchLit_none_of_good "Loading...".toList 'L' (by decide) (by decide) t ht

/-- `matchSignIn` fails on strings over `goodChar` (no `'S'`). -/
theorem matchSignIn_none (t : List Char) (ht : ∀ c ∈ t, goodChar c = true) :
    matchSignIn t = none := by
  unfold matchSignIn
  rw [matchLit_none_of_good "Sign in".toList 'S' (by decide) (by decide) t ht]
  rfl

/-- `matchLastEdit` fails on strings over `goodChar` (no `'L'`). -/
theorem matchLastEdit_none (t : List Char) (ht : ∀ c ∈ t, goodChar c = true) :
    matchLastEdit t = none := by
  unfold matchLastEdit
  rw [matchLit_none_of_good "Last edit was".toList 'L' (by decide) (by decide) t ht]
  rfl

/-- `matchDocsBr` fails on strings over `goodChar` (no `'D'`). -/
theorem matchDocsBr_none (t : List Char) (ht : ∀ c ∈ t, goodChar c = true) :
    matchDocsBr t = none := by
  unfold matchDocsBr
  rw [matchLit_none_of_good "DOCS_timing[".toList 'D' (by decide) (by decide) t ht]
  rfl

/-- `matchNewDate` fails on strings over `goodChar` (no `'('`). -/
theorem matchNewDate_none (t : List Char) (ht : ∀ c ∈ t, goodChar c = true) :
    matchNewDate t = none := by
  unfold matchNewDate
  exact matchLit_none_of_good "new Date().getTime()".toList '(' (by decide) (by decide) t ht

/-- `matchReqid` fails on strings over `goodChar` (no `'_'`). -/
theorem matchReqid_none (t : List Char) (ht : ∀ c ∈ t, goodChar c = true) :
    matchReqid t = none := by
  unfold matchReqid
  rw [matchLit_none_of_good "_reqid=".toList '_' (by decide) (by decide) t ht]
  rfl

/-- `matchAuthuser` fails on strings over `goodChar` (no `'='`). -/
theorem matchAuthuser_none (t : List Char) (ht : ∀ c ∈ t, goodChar c = true) :
    matchAuthuser t = none := by
  unfold matchAuthuser
  rw [matchLit_none_of_good "authuser=".toList '=' (by decide) (by decide) t ht]
  rfl

/-- `matchTs` fails on all-lowercase strings (the head must be a digit). -/
theorem matchTs_none_lower (t : List Char) (ht : ∀ c ∈ t, pyIsLower c = true) :
    matchTs t = none := by
  cases t with
  | nil => rfl
  | cons c cs =>
    show (if pyIsDigit c then _ else none) = none
    rw [pyIsLower_not_digit (ht c (List.mem_cons_self c cs))]
    simp

/-- `matchTs` fails on plain text strings (the head must be a digit). -/
theorem matchTs_none_text (t : List Char) (ht : ∀ c ∈ t, textChar c = true) :
    matchTs t = none := by
  cases t with
  | nil => rfl
  | cons c cs =>
    show (if pyIsDigit c then _ else none) = none
    rw [textChar_not_digit (ht c (List.mem_cons_self c cs))]
    simp

/-- `matchPage` fails when the input head is a plain text character (it
must be `'P'`). -/
theorem matchPage_none_head (c : Char) (t : List Char) (hc : textChar c = true) :
    matchPage (c :: t) = none := by
  unfold matchPage
  have hlit : "Page ".toList = 'P' :: "age ".toList := rfl
  have : matchLit "Page ".toList (c :: t) = none := by
    rw [hlit]
    show (if 'P' == c then _ else none) = none
    rw [textChar_ne_P hc]
    simp
  rw [this]
  rfl

/-- `matchPage` fails on the empty input. -/
theorem matchPage_none_nil : matchPage [] = none := rfl

/-- A successful `tsTail` pins a leading colon. -/
theorem tsTail_head (r out : List Char) (h : tsTail r = some out) :
    ∃ t, r = ':' :: t := by
  unfold tsTail at h
  rcases r with _ | ⟨c0, _ | ⟨d1, _ | ⟨d2, _ | ⟨c1, _ | ⟨d3, _ | ⟨d4, rest⟩⟩⟩⟩⟩⟩
  · simp at h
  · simp at h
  · simp at h
  · simp at h
  · simp at h
  · simp at h
  · have h' : (if (c0 == ':' && pyIsDigit d1 && pyIsDigit d2 && c1 == ':' &&
        pyIsDigit d3 && pyIsDigit d4) = true then
          (let r2 := (List.span pyIsSpace rest).2
           match matchLit ['A', 'M'] r2 with
           | some out => some out
           | none => matchLit ['P', 'M'] r2)
        else none) = some out := h
    by_cases hcond : (c0 == ':' && pyIsDigit d1 && pyIsDigit d2 && c1 == ':' &&
        pyIsDigit d3 && pyIsDigit d4) = true
    · have hc0 : c0 = ':' := by
        simp only [Bool.and_eq_true, beq_iff_eq] at hcond
        exact hcond.1.1.1.1.1
      exact ⟨_, by rw [hc0]⟩
    · rw [if_neg hcond] at h'
      simp at h'

/-- Necessary conditions for a `matchTs` success: the head is a digit and a
colon sits at index 1, or a digit at index 1 with a colon at index 2. -/
theorem matchTs_req (s out : List Char) (h : matchTs s = some out) :
    (∃ d t, s = d :: t ∧ pyIsDigit d = true) ∧
      (s.getD 1 ' ' = ':' ∨
        (pyIsDigit (s.getD 1 ' ') = true ∧ s.getD 2 ' ' = ':')) := by
  cases s with
  | nil => simp [matchTs] at h
  | cons d1 rest =>
    have h' : (if pyIsDigit d1 then
        (match rest with
          | d2 :: r2 =>
            if pyIsDigit d2 then
              match tsTail r2 with
              | some out => some out
              | none => tsTail rest
            else tsTail rest
          | [] => none) else none) = some out := h
    by_cases hd1 : pyIsDigit d1
    · rw [if_pos hd1] at h'
      refine ⟨⟨d1, rest, rfl, hd1⟩, ?_⟩
      cases rest with
      | nil => simp at h'
      | cons d2 r2 =>
        have h'' : (if pyIsDigit d2 = true then
            (match tsTail r2 with
              | some out => some out
              | none => tsTail (d2 :: r2))
          else tsTail (d2 :: r2)) = some out := h'
        by_cases hd2 : pyIsDigit d2
        · rw [if_pos hd2] at h''
          cases htt : tsTail r2 with
          | some out2 =>
            obtain ⟨t, ht⟩ := tsTail_head r2 out2 htt
            right
            refine ⟨by simpa using hd2, ?_⟩
            rw [ht]
            rfl
          | none =>
            rw [htt] at h''
            obtain ⟨t, ht⟩ := tsTail_head _ _ h''
            left
            rw [List.cons.injEq] at ht
            rw [ht.1]
            rfl
        · rw [if_neg hd2] at h''
          obtain ⟨t, ht⟩ := tsTail_head _ _ h''
          left
          rw [List.cons.injEq] at ht
          rw [ht.1]
          rfl
    · rw [if_neg hd1] at h'
      simp at h'

/-- A successful `matchPage` pins a leading `'P'`. -/
theorem matchPage_head (s out : List Char) (h : matchPage s = some out) :
    ∃ t, s = 'P' :: t := by
  unfold matchPage at h
  cases hm : matchLit "Page ".toList s with
  | none => rw [hm] at h; simp at h
  | some r1 =>
    have hlit : "Page ".toList = 'P' :: "age ".toList := rfl
    rw [hlit] at hm
    exact matchLit_cons_inv _ _ _ _ hm

/-- `strip` leaves a string whose ends are not whitespace unchanged. -/
theorem pyStrip_id (s : List Char)
    (h1 : ∀ c, s.head? = some c → pyIsSpace c = false)
    (h2 : ∀ c, s.getLast? = some c → pyIsSpace c = false) :
    pyStrip s = s := by
  unfold pyStrip
  have hd : s.dropWhile pyIsSpace = s := by
    cases s with
    | nil => rfl
    | cons c cs =>
      rw [List.dropWhile_cons, h1 c rfl]
      simp
  rw [hd]
  have hrev : s.reverse.dropWhile pyIsSpace = s.reverse := by
    cases hr : s.reverse with
    | nil => rfl
    | cons c cs =>
      have hlast : s.getLast? = some c := by
        rw [← List.head?_reverse, hr]
        rfl
      rw [List.dropWhile_cons, h2 c hlast]
      simp
  rw [hrev, List.reverse_reverse]

/-- `strip` absorbs a leading whitespace character. -/
theorem pyStrip_space_cons (c : Char) (s : List Char) (hc : pyIsSpace c = true) :
    pyStrip (c :: s) = pyStrip s := by
  unfold pyStrip
  rw [List.dropWhile_cons, hc]
  simp

/-- The whitespace-collapse is the identity on strings whose only whitespace
characters are plain spaces with no two adjacent. -/
theorem collapseWs_id (s : List Char)
    (h1 : ∀ c ∈ s, pyIsSpace c = true → c = ' ')
    (h2 : List.Chain' (fun a b => pyIsSpace a = false ∨ pyIsSpace b = false) s) :
    collapseWs s = s := by
  induction s with
  | nil => rfl
  | cons c cs ih =>
    have htail1 : ∀ x ∈ cs, pyIsSpace x = true → x = ' ' :=
      fun x hx => h1 x (List.mem_cons_of_mem c hx)
    have htail2 := (List.chain'_cons'.mp h2).2
    by_cases hc : pyIsSpace c
    · have hcsp : c = ' ' := h1 c (List.mem_cons_self c cs) hc
      cases cs with
      | nil =>
        show (if pyIsSpace c then [' '] else c :: collapseWs []) = [c]
        rw [if_pos hc, hcsp]
      | cons c' cs' =>
        have hR := (List.chain'_cons'.mp h2).1 c' rfl
        have hc' : pyIsSpace c' = false := by
          rcases hR with hR | hR
          · rw [hc] at hR; exact absurd hR (by simp)
          · exact hR
        show (if pyIsSpace c then
            (if pyIsSpace c' then collapseWs (c' :: cs')
              else ' ' :: collapseWs (c' :: cs'))
          else c :: collapseWs (c' :: cs')) = c :: c' :: cs'
        rw [if_pos hc, hc']
        simp only [Bool.false_eq_true, if_false]
        rw [ih htail1 htail2, hcsp]
    · show (if pyIsSpace c then _ else c :: collapseWs cs) = c :: cs
      rw [if_neg (by simp [hc]), ih htail1 htail2]

/-- Adjacent-whitespace chains hold trivially on whitespace-free strings. -/
theorem chain_of_nonspace (l : List Char) (h : ∀ c ∈ l, pyIsSpace c = false) :
    List.Chain' (fun a b => pyIsSpace a = false ∨ pyIsSpace b = false) l := by
  induction l with
  | nil => exact List.chain'_nil
  | cons c cs ih =>
    rw [List.chain'_cons']
    exact ⟨fun x _ => Or.inl (h c (List.mem_cons_self c cs)),
      ih (fun x hx => h x (List.mem_cons_of_mem c hx))⟩

/-- `tsTail` consumes the `:MM:SS AM/PM` tail exactly, leaving the rest. -/
theorem tsTail_compute (m1 m2 s1 s2 : Char) (ap C : List Char)
    (hm1 : pyIsDigit m1 = true) (hm2 : pyIsDigit m2 = true)
    (hs1 : pyIsDigit s1 = true) (hs2 : pyIsDigit s2 = true)
    (hap : ap = ['A', 'M'] ∨ ap = ['P', 'M']) :
    tsTail (':' :: m1 :: m2 :: ':' :: s1 :: s2 :: ' ' :: (ap ++ C)) = some C := by
  have hcond : ((':' == ':') && pyIsDigit m1 && pyIsDigit m2 && (':' == ':') &&
      pyIsDigit s1 && pyIsDigit s2) = true := by
    rw [hm1, hm2, hs1, hs2]
    rfl
  show (if (':' == ':') && pyIsDigit m1 && pyIsDigit m2 && (':' == ':') &&
      pyIsDigit s1 && pyIsDigit s2 then
      (match matchLit ['A', 'M'] ((List.span pyIsSpace (' ' :: (ap ++ C))).2) with
       | some out => some out
       | none => matchLit ['P', 'M'] ((List.span pyIsSpace (' ' :: (ap ++ C))).2))
    else none) = some C
  rw [if_pos hcond]
  rcases hap with hap | hap <;> subst hap
  · have hspan : (List.span pyIsSpace (' ' :: (['A', 'M'] ++ C))).2 = 'A' :: 'M' :: C := by
      rw [List.span_eq_take_drop]
      show List.dropWhile pyIsSpace (' ' :: 'A' :: 'M' :: C) = 'A' :: 'M' :: C
      rw [List.dropWhile_cons]
      simp only [show pyIsSpace ' ' = true by decide, if_true]
      rw [List.dropWhile_cons]
      simp only [show pyIsSpace 'A' = false by decide]
      simp
    rw [hspan]
    have hAMc : matchLit ['A', 'M'] ('A' :: 'M' :: C) = some C :=
      matchLit_self_append ['A', 'M'] C
    rw [hAMc]
  · have hspan : (List.span pyIsSpace (' ' :: (['P', 'M'] ++ C))).2 = 'P' :: 'M' :: C := by
      rw [List.span_eq_take_drop]
      show List.dropWhile pyIsSpace (' ' :: 'P' :: 'M' :: C) = 'P' :: 'M' :: C
      rw [List.dropWhile_cons]
      simp only [show pyIsSpace ' ' = true by decide, if_true]
      rw [List.dropWhile_cons]
      simp only [show pyIsSpace 'P' = false by decide]
      simp
    rw [hspan]
    have hAM : matchLit ['A', 'M'] ('P' :: 'M' :: C) = none := by
      show (if 'A' == 'P' then _ else none) = none
      rfl
    rw [hAM]
    have hPMc : matchLit ['P', 'M'] ('P' :: 'M' :: C) = some C :=
      matchLit_self_append ['P', 'M'] C
    rw [hPMc]

/-- `matchTs` consumes a well-formed timestamp exactly, leaving the rest. -/
theorem matchTs_timeStamp (hh : List Char) (m1 m2 s1 s2 : Char) (ap C : List Char)
    (hne : hh ≠ []) (hlen : hh.length ≤ 2) (hdig : ∀ c ∈ hh, pyIsDigit c = true)
    (hm1 : pyIsDigit m1 = true) (hm2 : pyIsDigit m2 = true)
    (hs1 : pyIsDigit s1 = true) (hs2 : pyIsDigit s2 = true)
    (hap : ap = ['A', 'M'] ∨ ap = ['P', 'M']) :
    matchTs (timeStamp hh m1 m2 s1 s2 ap ++ C) = some C := by
  have htail := tsTail_compute m1 m2 s1 s2 ap C hm1 hm2 hs1 hs2 hap
  rcases hh with _ | ⟨h1, _ | ⟨h2, _ | ⟨h3, t⟩⟩⟩
  · exact absurd rfl hne
  · have hh1 : pyIsDigit h1 = true := hdig h1 (List.mem_cons_self h1 [])
    show (if pyIsDigit h1 = true then
        (if pyIsDigit ':' = true then
          (match tsTail (m1 :: m2 :: ':' :: s1 :: s2 :: ' ' :: (ap ++ C)) with
            | some out => some out
            | none => tsTail (':' :: m1 :: m2 :: ':' :: s1 :: s2 :: ' ' :: (ap ++ C)))
          else tsTail (':' :: m1 :: m2 :: ':' :: s1 :: s2 :: ' ' :: (ap ++ C)))
      else none) = some C
    rw [if_pos hh1, if_neg (by decide), htail]
  · have hh1 : pyIsDigit h1 = true := hdig h1 (by simp)
    have hh2 : pyIsDigit h2 = true := hdig h2 (by simp)
    show (if pyIsDigit h1 = true then
        (if pyIsDigit h2 = true then
          (match tsTail (':' :: m1 :: m2 :: ':' :: s1 :: s2 :: ' ' :: (ap ++ C)) with
            | some out => some out
            | none => tsTail (h2 :: ':' :: m1 :: m2 :: ':' :: s1 :: s2 :: ' ' :: (ap ++ C)))
          else tsTail (h2 :: ':' :: m1 :: m2 :: ':' :: s1 :: s2 :: ' ' :: (ap ++ C)))
      else none) = some C
    rw [if_pos hh1, if_pos hh2, htail]
  · simp at hlen

/-- Inside a colon-free region that ends with a lowercase letter, the
timestamp matcher never fires, wherever the scan stands. -/
theorem matchTs_none_in_region (X Y : List Char)
    (hcolon : ∀ c ∈ X, (c == ':') = false)
    (hlast : ∀ c, X.getLast? = some c → pyIsDigit c = false) :
    ∀ u v, u ++ v = X → v ≠ [] → matchTs (v ++ Y) = none := by
  intro u v huv hv
  cases hres : matchTs (v ++ Y) with
  | none => rfl
  | some out =>
    exfalso
    obtain ⟨⟨d, t, hcons, hd⟩, hdisj⟩ := matchTs_req _ _ hres
    rcases v with _ | ⟨a, v'⟩
    · exact hv rfl
    · have hav : a :: v' ++ Y = d :: t := hcons
      have had : a = d := (List.cons.injEq _ _ _ _).mp hav |>.1
      rcases v' with _ | ⟨b, v''⟩
      · have hXlast : X.getLast? = some a := by
          rw [← huv]
          rw [@List.getLast?_append_of_ne_nil Char u [a] (by simp)]
          rfl
        have := hlast a hXlast
        rw [had, hd] at this
        exact absurd this (by simp)
      · have hbX : b ∈ X := by
          rw [← huv]
          exact List.mem_append_right u (by simp)
        have hb1 : (a :: b :: v'' ++ Y).getD 1 ' ' = b := rfl
        rcases v'' with _ | ⟨e, v'''⟩
        · have hXlast : X.getLast? = some b := by
            rw [← huv]
            rw [@List.getLast?_append_of_ne_nil Char u [a, b] (by simp)]
            rfl
          have hblow := hlast b hXlast
          rcases hdisj with hdisj | hdisj
          · rw [hb1] at hdisj
            have : (b == ':') = false := hcolon b hbX
            rw [hdisj] at this
            simp at this
          · rw [hb1] at hdisj
            rw [hdisj.1] at hblow
            simp at hblow
        · have heX : e ∈ X := by
            rw [← huv]
            exact List.mem_append_right u (by simp)
          have he2 : (a :: b :: e :: v''' ++ Y).getD 2 ' ' = e := rfl
          rcases hdisj with hdisj | hdisj
          · rw [hb1] at hdisj
            have : (b == ':') = false := hcolon b hbX
            rw [hdisj] at this
            simp at this
          · rw [he2] at hdisj
            have : (e == ':') = false := hcolon e heX
            rw [hdisj.2] at this
            simp at this

/-- `matchPage` fails on plain text strings. -/
theorem matchPage_none_text (t : List Char) (ht : ∀ c ∈ t, textChar c = true) :
    matchPage t = none := by
  cases t with
  | nil => rfl
  | cons c cs => exact matchPage_none_head c cs (ht c (List.mem_cons_self c cs))

/-- `matchPage` consumes a well-formed page footer exactly when followed by
text starting with a lowercase letter. -/
theorem matchPage_pageFooter (dn dm rest : List Char)
    (hdn : dn ≠ []) (hdnd : ∀ c ∈ dn, pyIsDigit c = true)
    (hdm : dm ≠ []) (hdmd : ∀ c ∈ dm, pyIsDigit c = true)
    (hrest : ∀ c, rest.head? = some c → pyIsDigit c = false) :
    matchPage (pageFooter dn dm ++ rest) = some rest := by
  unfold matchPage pageFooter
  have hassoc : "Page ".toList ++ dn ++ " of ".toList ++ dm ++ rest =
      "Page ".toList ++ (dn ++ (" of ".toList ++ (dm ++ rest))) := by
    simp [List.append_assoc]
  rw [hassoc, matchLit_self_append]
  rw [Option.some_bind]
  have hspan1 : (dn ++ (" of ".toList ++ (dm ++ rest))).span pyIsDigit =
      (dn, " of ".toList ++ (dm ++ rest)) := by
    apply span_append_sat _ _ _ hdnd
    intro r hr
    have : (" of ".toList ++ (dm ++ rest)).head? = some ' ' := rfl
    rw [this] at hr
    rw [Option.mem_def] at hr
    obtain rfl : ' ' = r := Option.some.inj hr
    decide
  rw [hspan1]
  rcases dn with _ | ⟨d0, dt⟩
  · exact absurd rfl hdn
  · show (matchLit " of ".toList (" of ".toList ++ (dm ++ rest))).bind _ = some rest
    rw [matchLit_self_append]
    have hspan2 : (dm ++ rest).span pyIsDigit = (dm, rest) := by
      apply span_append_sat _ _ _ hdmd
      intro r hr
      rw [Option.mem_def] at hr
      exact hrest r hr
    show (match (dm ++ rest).span pyIsDigit with
      | ([], _) => none
      | (_ :: _, r4) => some r4) = some rest
    rw [hspan2]
    rcases dm with _ | ⟨e0, et⟩
    · exact absurd rfl hdm
    · rfl

/-- Every character of the composed footer-and-timestamp family lies in the
`goodChar` set. -/
theorem composed_good (A B C dn dm hh : List Char) (m1 m2 s1 s2 : Char)
    (ap : List Char)
    (hA : ∀ c ∈ A, textChar c = true) (hB : ∀ c ∈ B, textChar c = true)
    (hC : ∀ c ∈ C, textChar c = true)
    (hdnd : ∀ c ∈ dn, pyIsDigit c = true) (hdmd : ∀ c ∈ dm, pyIsDigit c = true)
    (hhd : ∀ c ∈ hh, pyIsDigit c = true)
    (hm1 : pyIsDigit m1 = true) (hm2 : pyIsDigit m2 = true)
    (hs1 : pyIsDigit s1 = true) (hs2 : pyIsDigit s2 = true)
    (hap : ap = ['A', 'M'] ∨ ap = ['P', 'M']) :
    ∀ c ∈ A ++ pageFooter dn dm ++ B ++ timeStamp hh m1 m2 s1 s2 ap ++ C,
      goodChar c = true := by
  intro c hc
  have hPage : ∀ x ∈ "Page ".toList, goodChar x = true := by decide
  have hOf : ∀ x ∈ " of ".toList, goodChar x = true := by decide
  have hap' : ∀ x ∈ ap, goodChar x = true := by
    rcases hap with hap | hap <;> subst hap <;> decide
  have htext : ∀ {x : Char}, x ∈ A ∨ x ∈ B ∨ x ∈ C → goodChar x = true := by
    intro x hx
    rcases hx with hx | hx | hx
    · exact textChar_goodChar (hA x hx)
    · exact textChar_goodChar (hB x hx)
    · exact textChar_goodChar (hC x hx)
  simp only [pageFooter, timeStamp, List.mem_append, List.mem_cons] at hc
  rcases hc with (((hc | ((hc | hc) | hc) | hc) | hc) | (hc | hc)) | hc
  · exact htext (Or.inl hc)
  · exact hPage c hc
  · exact pyIsDigit_goodChar (hdnd c hc)
  · exact hOf c hc
  · exact pyIsDigit_goodChar (hdmd c hc)
  · exact htext (Or.inr (Or.inl hc))
  · exact pyIsDigit_goodChar (hhd c hc)
  · rcases hc with hc | hc | hc | hc | hc | hc | hc | hc
    · subst hc; decide
    · subst hc; exact pyIsDigit_goodChar hm1
    · subst hc; exact pyIsDigit_goodChar hm2
    · subst hc; decide
    · subst hc; exact pyIsDigit_goodChar hs1
    · subst hc; exact pyIsDigit_goodChar hs2
    · subst hc; decide
    · exact hap' c hc
  · exact htext (Or.inr (Or.inr hc))

/-- Append two adjacent-whitespace chains when the right part starts with a
non-whitespace character. -/
theorem chain_append_right_head (l1 l2 : List Char)
    (h1 : List.Chain' (fun a b => pyIsSpace a = false ∨ pyIsSpace b = false) l1)
    (h2 : List.Chain' (fun a b => pyIsSpace a = false ∨ pyIsSpace b = false) l2)
    (hhead : ∀ y, l2.head? = some y → pyIsSpace y = false) :
    List.Chain' (fun a b => pyIsSpace a = false ∨ pyIsSpace b = false) (l1 ++ l2) :=
  List.chain'_append.mpr ⟨h1, h2, fun _ _ y hy => Or.inr (hhead y hy)⟩

/-- Append two adjacent-whitespace chains when the left part ends with a
non-whitespace character. -/
theorem chain_append_left_last (l1 l2 : List Char)
    (h1 : List.Chain' (fun a b => pyIsSpace a = false ∨ pyIsSpace b = false) l1)
    (h2 : List.Chain' (fun a b => pyIsSpace a = false ∨ pyIsSpace b = false) l2)
    (hlast : ∀ x, l1.getLast? = some x → pyIsSpace x = false) :
    List.Chain' (fun a b => pyIsSpace a = false ∨ pyIsSpace b = false) (l1 ++ l2) :=
  List.chain'_append.mpr ⟨h1, h2, fun x hx _ _ => Or.inl (hlast x hx)⟩

/-- The composed footer-and-timestamp family has no two adjacent whitespace
characters, provided the three text parts have none internally. -/
theorem composed_chain (A B C dn dm hh : List Char) (m1 m2 s1 s2 : Char)
    (ap : List Char)
    (hAns : noTwoSpaces A = true) (hBns : noTwoSpaces B = true)
    (hCns : noTwoSpaces C = true)
    (hdn : dn ≠ []) (hdnd : ∀ c ∈ dn, pyIsDigit c = true)
    (hdm : dm ≠ []) (hdmd : ∀ c ∈ dm, pyIsDigit c = true)
    (hhd : ∀ c ∈ hh, pyIsDigit c = true)
    (hm1 : pyIsDigit m1 = true) (hm2 : pyIsDigit m2 = true)
    (hs1 : pyIsDigit s1 = true) (hs2 : pyIsDigit s2 = true)
    (hap : ap = ['A', 'M'] ∨ ap = ['P', 'M']) :
    List.Chain' (fun a b => pyIsSpace a = false ∨ pyIsSpace b = false)
      (A ++ pageFooter dn dm ++ B ++ timeStamp hh m1 m2 s1 s2 ap ++ C) := by
  have hAch := noTwoSpaces_chain A hAns
  have hBch := noTwoSpaces_chain B hBns
  have hCch := noTwoSpaces_chain C hCns
  have hdnch := chain_of_nonspace dn (fun c hc => pyIsDigit_not_space (hdnd c hc))
  have hdmch := chain_of_nonspace dm (fun c hc => pyIsDigit_not_space (hdmd c hc))
  have hhhch := chain_of_nonspace hh (fun c hc => pyIsDigit_not_space (hhd c hc))
  have hPagech : List.Chain' (fun a b => pyIsSpace a = false ∨ pyIsSpace b = false)
      "Page ".toList := by
    show List.Chain' _ ['P', 'a', 'g', 'e', ' ']
    rw [List.chain'_cons']
    refine ⟨fun h hh => Or.inl (by decide), ?_⟩
    rw [List.chain'_cons']
    refine ⟨fun h hh => Or.inl (by decide), ?_⟩
    rw [List.chain'_cons']
    refine ⟨fun h hh => Or.inl (by decide), ?_⟩
    rw [List.chain'_cons']
    exact ⟨fun h hh => Or.inl (by decide), List.chain'_singleton _⟩
  have hOfch : List.Chain' (fun a b => pyIsSpace a = false ∨ pyIsSpace b = false)
      " of ".toList := by
    show List.Chain' _ [' ', 'o', 'f', ' ']
    rw [List.chain'_cons']
    refine ⟨fun h hh => Or.inr (by obtain rfl := Option.some.inj hh.symm; decide), ?_⟩
    rw [List.chain'_cons']
    refine ⟨fun h hh => Or.inl (by decide), ?_⟩
    rw [List.chain'_cons']
    exact ⟨fun h hh => Or.inl (by decide), List.chain'_singleton _⟩
  have hpg : List.Chain' (fun a b => pyIsSpace a = false ∨ pyIsSpace b = false)
      (pageFooter dn dm) := by
    unfold pageFooter
    apply chain_append_right_head
    · apply chain_append_left_last
      · apply chain_append_right_head
        · exact hPagech
        · exact hdnch
        · intro y hy
          exact pyIsDigit_not_space (hdnd y (List.mem_of_mem_head? hy))
      · exact hOfch
      · intro x hx
        rw [List.getLast?_append_of_ne_nil _ hdn] at hx
        exact pyIsDigit_not_space (hdnd x (List.mem_of_mem_getLast? hx))
    · exact hdmch
    · intro y hy
      exact pyIsDigit_not_space (hdmd y (List.mem_of_mem_head? hy))
  have hpgne : pageFooter dn dm ≠ [] := by
    intro habs
    have : (pageFooter dn dm).head? = some 'P' := rfl
    rw [habs] at this
    simp at this
  have hpglast : ∀ x, (pageFooter dn dm).getLast? = some x → pyIsSpace x = false := by
    intro x hx
    unfold pageFooter at hx
    rw [List.getLast?_append_of_ne_nil _ hdm] at hx
    exact pyIsDigit_not_space (hdmd x (List.mem_of_mem_getLast? hx))
  have hapch : List.Chain' (fun a b => pyIsSpace a = false ∨ pyIsSpace b = false) ap := by
    rcases hap with hap | hap <;> subst hap <;>
      · rw [List.chain'_cons']
        exact ⟨fun h hh => Or.inl (by decide), List.chain'_singleton _⟩
  have haphead : ∀ y, ap.head? = some y → pyIsSpace y = false := by
    intro y hy
    rcases hap with hap | hap <;> subst hap <;>
      · obtain rfl := Option.some.inj hy
        decide
  have htsTailch : List.Chain' (fun a b => pyIsSpace a = false ∨ pyIsSpace b = false)
      (':' :: m1 :: m2 :: ':' :: s1 :: s2 :: ' ' :: ap) := by
    rw [List.chain'_cons']
    refine ⟨fun h _ => Or.inl (by decide), ?_⟩
    rw [List.chain'_cons']
    refine ⟨fun h _ => Or.inl (pyIsDigit_not_space hm1), ?_⟩
    rw [List.chain'_cons']
    refine ⟨fun h _ => Or.inl (pyIsDigit_not_space hm2), ?_⟩
    rw [List.chain'_cons']
    refine ⟨fun h _ => Or.inl (by decide), ?_⟩
    rw [List.chain'_cons']
    refine ⟨fun h _ => Or.inl (pyIsDigit_not_space hs1), ?_⟩
    rw [List.chain'_cons']
    refine ⟨fun h _ => Or.inl (pyIsDigit_not_space hs2), ?_⟩
    rw [List.chain'_cons']
    refine ⟨fun h hh' => Or.inr (haphead h hh'), hapch⟩
  have htsch : List.Chain' (fun a b => pyIsSpace a = false ∨ pyIsSpace b = false)
      (timeStamp hh m1 m2 s1 s2 ap) := by
    unfold timeStamp
    apply chain_append_right_head _ _ hhhch htsTailch
    intro y hy
    obtain rfl := Option.some.inj hy
    decide
  have htsne : timeStamp hh m1 m2 s1 s2 ap ≠ [] := by
    unfold timeStamp
    simp
  have htslast : ∀ x, (timeStamp hh m1 m2 s1 s2 ap).getLast? = some x →
      pyIsSpace x = false := by
    intro x hx
    unfold timeStamp at hx
    rw [List.getLast?_append_of_ne_nil _ (by simp)] at hx
    rcases hap with hap | hap <;> subst hap
    · have : (':' :: m1 :: m2 :: ':' :: s1 :: s2 :: ' ' :: ['A', 'M']).getLast? =
          some 'M' := rfl
      obtain rfl := Option.some.inj (hx.symm.trans this)
      decide
    · have : (':' :: m1 :: m2 :: ':' :: s1 :: s2 :: ' ' :: ['P', 'M']).getLast? =
          some 'M' := rfl
      obtain rfl := Option.some.inj (hx.symm.trans this)
      decide
  have hpghead : (pageFooter dn dm).head? = some 'P' := rfl
  apply chain_append_left_last
  · apply chain_append_right_head
    · apply chain_append_left_last
      · apply chain_append_right_head _ _ hAch hpg
        intro y hy
        rw [hpghead] at hy
        obtain rfl := Option.some.inj hy
        decide
      · exact hBch
      · intro x hx
        rw [List.getLast?_append_of_ne_nil _ hpgne] at hx
        exact hpglast x hx
    · exact htsch
    · intro y hy
      unfold timeStamp at hy
      cases hh with
      | nil =>
        obtain rfl := Option.some.inj hy
        decide
      | cons h1 t =>
        have hyh : y = h1 := (Option.some.inj hy).symm
        subst hyh
        exact pyIsDigit_not_space (hhd y (List.mem_cons_self y t))
  · exact hCch
  · intro x hx
    rw [List.getLast?_append_of_ne_nil _ htsne] at hx
    exact htslast x hx

/-- Normalization of the composed footer-and-timestamp family: the title
search finds nothing, the markup passes are inert, the six noise passes are
inert, the timestamp pass deletes exactly the timestamp, the page pass
deletes exactly the footer, and the result is the stable text
`A ++ B ++ C` put through the final whitespace collapse and strip — a value
independent of the footer and timestamp parameters. -/
theorem fbNormalize_composed (A B C dn dm hh : List Char) (m1 m2 s1 s2 : Char)
    (ap : List Char)
    (hA : ∀ c ∈ A, textChar c = true) (hB : ∀ c ∈ B, textChar c = true)
    (hC : ∀ c ∈ C, textChar c = true) (hBne : B ≠ [])
    (hAns : noTwoSpaces A = true) (hBns : noTwoSpaces B = true)
    (hCns : noTwoSpaces C = true)
    (hAhead : headOk A = true) (hClast : lastOk C = true)
    (hdn : dn ≠ []) (hdnd : ∀ c ∈ dn, pyIsDigit c = true)
    (hdm : dm ≠ []) (hdmd : ∀ c ∈ dm, pyIsDigit c = true)
    (hhne : hh ≠ []) (hhlen : hh.length ≤ 2) (hhd : ∀ c ∈ hh, pyIsDigit c = true)
    (hm1 : pyIsDigit m1 = true) (hm2 : pyIsDigit m2 = true)
    (hs1 : pyIsDigit s1 = true) (hs2 : pyIsDigit s2 = true)
    (hap : ap = ['A', 'M'] ∨ ap = ['P', 'M']) :
    fbNormalize (A ++ pageFooter dn dm ++ B ++ timeStamp hh m1 m2 s1 s2 ap ++ C) =
      pyStrip (collapseWs (A ++ (B ++ C))) := by
  have hgood := composed_good A B C dn dm hh m1 m2 s1 s2 ap hA hB hC hdnd hdmd hhd
    hm1 hm2 hs1 hs2 hap
  have hchain := composed_chain A B C dn dm hh m1 m2 s1 s2 ap hAns hBns hCns
    hdn hdnd hdm hdmd hhd hm1 hm2 hs1 hs2 hap
  set W := A ++ pageFooter dn dm ++ B ++ timeStamp hh m1 m2 s1 s2 ap ++ C with hW
  have hspaces : ∀ c ∈ W, pyIsSpace c = true → c = ' ' :=
    fun c hc hs => goodChar_space (hgood c hc) hs
  have hpgne : pageFooter dn dm ≠ [] := by
    intro habs
    have : (pageFooter dn dm).head? = some 'P' := rfl
    rw [habs] at this
    simp at this
  have htsne : timeStamp hh m1 m2 s1 s2 ap ≠ [] := by
    unfold timeStamp
    simp
  have hhead : ∀ c, W.head? = some c → pyIsSpace c = false := by
    intro c hc
    rw [hW] at hc
    rcases A with _ | ⟨a, A'⟩
    · have : W.head? = some 'P' := by
        rw [hW]
        rw [List.head?_append_of_ne_nil _ (by simp [hpgne]),
          List.head?_append_of_ne_nil _ (by simp [hpgne]),
          List.head?_append_of_ne_nil _ (by simp [hpgne])]
        rfl
      rw [hW] at this
      obtain rfl := Option.some.inj (this.symm.trans hc)
      decide
    · have : ((a :: A') ++ pageFooter dn dm ++ B ++ timeStamp hh m1 m2 s1 s2 ap ++
          C).head? = some a := rfl
      obtain rfl := Option.some.inj (this.symm.trans hc)
      simpa [headOk] using hAhead
  have hlast : ∀ c, W.getLast? = some c → pyIsSpace c = false := by
    intro c hc
    rw [hW] at hc
    rcases hCc : C with _ | ⟨c0, C'⟩
    · subst hCc
      rw [List.append_nil] at hc
      rw [List.getLast?_append_of_ne_nil _ htsne] at hc
      unfold timeStamp at hc
      rw [List.getLast?_append_of_ne_nil _ (by simp)] at hc
      rcases hap with hap | hap <;> subst hap
      · have : (':' :: m1 :: m2 :: ':' :: s1 :: s2 :: ' ' :: ['A', 'M']).getLast? =
            some 'M' := rfl
        have hcM : c = 'M' := Option.some.inj (hc.symm.trans this)
        subst hcM
        decide
      · have : (':' :: m1 :: m2 :: ':' :: s1 :: s2 :: ' ' :: ['P', 'M']).getLast? =
            some 'M' := rfl
        have hcM : c = 'M' := Option.some.inj (hc.symm.trans this)
        subst hcM
        decide
    · subst hCc
      rw [List.getLast?_append_of_ne_nil _ (by simp)] at hc
      exact lastOk_getLast _ hClast c hc
  have htitle : titleScan W = none := titleScan_none W hgood
  have hp1 : scanSub (matchTag "script".toList) W = W :=
    scanAux_id _ goodChar (matchTag_none _) W.length W hgood
  have hp2 : scanSub (matchTag "style".toList) W = W :=
    scanAux_id _ goodChar (matchTag_none _) W.length W hgood
  have hp3 : scanSub (matchTag "noscript".toList) W = W :=
    scanAux_id _ goodChar (matchTag_none _) W.length W hgood
  have hp4 : scanSub matchAngle W = W :=
    scanAux_id _ goodChar matchAngle_none W.length W hgood
  have hstrip : pyStrip ('\n' :: W) = W := by
    rw [pyStrip_space_cons '\n' W (by decide)]
    exact pyStrip_id W hhead hlast
  have hcollapse : collapseWs W = W := collapseWs_id W hspaces hchain
  have hp5 : scanSub matchVarDocs W = W :=
    scanAux_id _ goodChar matchVarDocs_none W.length W hgood
  have hp6 : scanSub matchNonce W = W :=
    scanAux_id _ goodChar matchNonce_none W.length W hgood
  have hp7 : scanSub matchSid W = W :=
    scanAux_id _ goodChar matchSid_none W.length W hgood
  have hp8 : scanSub matchLoading W = W :=
    scanAux_id _ goodChar matchLoading_none W.length W hgood
  have hp9 : scanSub matchSignIn W = W :=
    scanAux_id _ goodChar matchSignIn_none W.length W hgood
  have hp10 : scanSub matchLastEdit W = W :=
    scanAux_id _ goodChar matchLastEdit_none W.length W hgood
  -- the timestamp pass deletes exactly the timestamp
  have hcolonX : ∀ c ∈ (A ++ pageFooter dn dm) ++ B, (c == ':') = false := by
    intro c hc
    rw [beq_eq_false_iff_ne]
    intro heq
    subst heq
    rcases List.mem_append.mp hc with hc | hc
    · rcases List.mem_append.mp hc with hc | hc
      · exact absurd (hA _ hc) (by decide)
      · unfold pageFooter at hc
        rcases List.mem_append.mp hc with hc | hc
        · rcases List.mem_append.mp hc with hc | hc
          · rcases List.mem_append.mp hc with hc | hc
            · exact absurd hc (by decide)
            · exact absurd (hdnd _ hc) (by decide)
          · exact absurd hc (by decide)
        · exact absurd (hdmd _ hc) (by decide)
    · exact absurd (hB _ hc) (by decide)
  have hlastX : ∀ c, ((A ++ pageFooter dn dm) ++ B).getLast? = some c →
      pyIsDigit c = false := by
    intro c hc
    rw [List.getLast?_append_of_ne_nil _ hBne] at hc
    exact textChar_not_digit (hB c (List.mem_of_mem_getLast? hc))
  have htsC : matchTs (timeStamp hh m1 m2 s1 s2 ap ++ C) = some C :=
    matchTs_timeStamp hh m1 m2 s1 s2 ap C hhne hhlen hhd hm1 hm2 hs1 hs2 hap
  have hCid : ∀ f, scanAux matchTs f C = C :=
    fun f => scanAux_id _ textChar matchTs_none_text f C hC
  have hp11 : scanSub matchTs W = (A ++ pageFooter dn dm) ++ B ++ C := by
    rw [hW]
    show scanAux matchTs
      (((A ++ pageFooter dn dm ++ B) ++ timeStamp hh m1 m2 s1 s2 ap) ++ C).length
      (((A ++ pageFooter dn dm ++ B) ++ timeStamp hh m1 m2 s1 s2 ap) ++ C) =
      (A ++ pageFooter dn dm) ++ B ++ C
    rw [List.append_assoc (A ++ pageFooter dn dm ++ B) (timeStamp hh m1 m2 s1 s2 ap) C]
    rw [scanAux_append_none matchTs (timeStamp hh m1 m2 s1 s2 ap ++ C)
      (A ++ pageFooter dn dm ++ B) _
      (matchTs_none_in_region _ _ hcolonX hlastX)]
    have hlen : ((A ++ pageFooter dn dm ++ B) ++
        (timeStamp hh m1 m2 s1 s2 ap ++ C)).length -
        (A ++ pageFooter dn dm ++ B).length =
        (timeStamp hh m1 m2 s1 s2 ap ++ C).length := by
      simp
      omega
    rw [hlen]
    cases hl : (timeStamp hh m1 m2 s1 s2 ap ++ C).length with
    | zero =>
      exfalso
      have : timeStamp hh m1 m2 s1 s2 ap ++ C ≠ [] := by simp [htsne]
      rw [← List.length_pos] at this
      omega
    | succ k =>
      have hne2 : timeStamp hh m1 m2 s1 s2 ap ++ C ≠ [] := by simp [htsne]
      obtain ⟨d, t, hdt⟩ : ∃ d t, timeStamp hh m1 m2 s1 s2 ap ++ C = d :: t := by
        cases hx : timeStamp hh m1 m2 s1 s2 ap ++ C with
        | nil => exact absurd hx hne2
        | cons d t => exact ⟨d, t, rfl⟩
      rw [hdt]
      rw [scanAux_head_match matchTs d t C k (by rw [← hdt]; exact htsC)]
      rw [hCid k]
  -- the page pass deletes exactly the footer
  have hABCtext : ∀ c ∈ A ++ (B ++ C), textChar c = true := by
    intro c hc
    rcases List.mem_append.mp hc with hc | hc
    · exact hA c hc
    · rcases List.mem_append.mp hc with hc | hc
      · exact hB c hc
      · exact hC c hc
  have hBCtext : ∀ c ∈ B ++ C, textChar c = true :=
    fun c hc => hABCtext c (List.mem_append_right A hc)
  have hpgBC : matchPage (pageFooter dn dm ++ (B ++ C)) = some (B ++ C) := by
    apply matchPage_pageFooter dn dm (B ++ C) hdn hdnd hdm hdmd
    intro c hc
    rw [List.head?_append_of_ne_nil B hBne] at hc
    exact textChar_not_digit (hB c (List.mem_of_mem_head? hc))
  have hp12 : scanSub matchPage ((A ++ pageFooter dn dm) ++ B ++ C) =
      A ++ (B ++ C) := by
    have hassoc2 : (A ++ pageFooter dn dm) ++ B ++ C =
        A ++ (pageFooter dn dm ++ (B ++ C)) := by
      simp [List.append_assoc]
    show scanAux matchPage ((A ++ pageFooter dn dm) ++ B ++ C).length
      ((A ++ pageFooter dn dm) ++ B ++ C) = A ++ (B ++ C)
    rw [hassoc2]
    rw [scanAux_append_none matchPage (pageFooter dn dm ++ (B ++ C)) A _ ?hnoneA]
    case hnoneA =>
      intro u v huv hv
      rcases v with _ | ⟨a, v'⟩
      · exact absurd rfl hv
      · have haA : a ∈ A := by
          rw [← huv]
          exact List.mem_append_right u (List.mem_cons_self a v')
        exact matchPage_none_head a _ (hA a haA)
    have hlen2 : (A ++ (pageFooter dn dm ++ (B ++ C))).length - A.length =
        (pageFooter dn dm ++ (B ++ C)).length := by
      simp
    rw [hlen2]
    cases hl : (pageFooter dn dm ++ (B ++ C)).length with
    | zero =>
      exfalso
      have : pageFooter dn dm ++ (B ++ C) ≠ [] := by simp [hpgne]
      rw [← List.length_pos] at this
      omega
    | succ k =>
      obtain ⟨d, t, hdt⟩ : ∃ d t, pageFooter dn dm ++ (B ++ C) = d :: t := by
        cases hx : pageFooter dn dm ++ (B ++ C) with
        | nil => exact absurd hx (by simp [hpgne])
        | cons d t => exact ⟨d, t, rfl⟩
      rw [hdt]
      rw [scanAux_head_match matchPage d t (B ++ C) k (by rw [← hdt]; exact hpgBC)]
      rw [scanAux_id _ textChar matchPage_none_text k (B ++ C) hBCtext]
  -- remaining passes are inert on the stable text
  have hABCgood : ∀ c ∈ A ++ (B ++ C), goodChar c = true :=
    fun c hc => textChar_goodChar (hABCtext c hc)
  have hp13 : scanSub matchDocsBr (A ++ (B ++ C)) = A ++ (B ++ C) :=
    scanAux_id _ goodChar matchDocsBr_none _ _ hABCgood
  have hp14 : scanSub matchNewDate (A ++ (B ++ C)) = A ++ (B ++ C) :=
    scanAux_id _ goodChar matchNewDate_none _ _ hABCgood
  have hp15 : scanSub matchReqid (A ++ (B ++ C)) = A ++ (B ++ C) :=
    scanAux_id _ goodChar matchReqid_none _ _ hABCgood
  have hp16 : scanSub matchAuthuser (A ++ (B ++ C)) = A ++ (B ++ C) :=
    scanAux_id _ goodChar matchAuthuser_none _ _ hABCgood
  -- assemble the pipeline
  have htitle' : (match titleScan W with
      | some g => pyStrip g
      | none => ([] : List Char)) = [] := by
    rw [htitle]
  show fbNormalize W = pyStrip (collapseWs (A ++ (B ++ C)))
  simp only [fbNormalize]
  rw [htitle', hp1, hp2, hp3, hp4, List.nil_append, hstrip, hcollapse,
    hp5, hp6, hp7, hp8, hp9, hp10, hp11, hp12, hp13, hp14, hp15, hp16]

/-- C3 counterexample: the claim that any two raw inputs differing only in a
`"Page N of M"` footer and an `"H:MM:SS AM/PM"` timestamp receive the same
fingerprint is false of the code.  The two inputs
`"Page 1 of 5 ab92:15:07 PMcd"` and `"Page 2 of 7 ab911:45:30 AMcd"` share
all text outside the footer and the timestamp (the common middle `" ab9"`
and suffix `"cd"`), yet normalize to `"abcd"` and `"ab9cd"` respectively:
the greedy one-or-two-digit hour of the timestamp pattern absorbs the
adjacent `9` when the hour has one digit but not when it has two, so the
digests differ. -/
theorem fingerprint_page_timestamp_counterexample :
    fbNormalize (pageFooter ['1'] ['5'] ++ " ab9".toList ++
        timeStamp ['2'] '1' '5' '0' '7' ['P', 'M'] ++ "cd".toList) ≠
      fbNormalize (pageFooter ['2'] ['7'] ++ " ab9".toList ++
        timeStamp ['1', '1'] '4' '5' '3' '0' ['A', 'M'] ++ "cd".toList) := by
  decide

/-- C3 (amended): the fingerprint function (SHA-256 over the normalized
text, so two inputs receive the same hex digest exactly when the normalized
texts are equal) maps the two raw HTML inputs
`"<title>Doc</title><body>Page 1 of 5 Hello World</body>"` and
`"<title>Doc</title><body>Page 2 of 5 Hello World</body>"` to the same
digest; and any two raw inputs that differ only in a well-delimited
`"Page N of M"` footer and an `"H:MM:SS AM/PM"` timestamp — the shared
prefix, middle and suffix being plain text (lowercase words and spaces, no
two spaces adjacent, not starting or ending the whole input with a space),
with non-empty text between the footer and the timestamp — receive the same
digest.  The delimitation is what the counterexample forces: with a digit
adjacent to the timestamp the greedy hour pattern makes the claim fail
(`fingerprint_page_timestamp_counterexample`). -/
theorem fingerprint_ignores_page_and_timestamp :
    fbNormalize "<title>Doc</title><body>Page 1 of 5 Hello World</body>".toList =
      fbNormalize "<title>Doc</title><body>Page 2 of 5 Hello World</body>".toList ∧
    ∀ (A B C dn₁ dm₁ dn₂ dm₂ hh₁ hh₂ : List Char)
      (m1 m2 s1 s2 m1' m2' s1' s2' : Char) (ap₁ ap₂ : List Char),
      (∀ c ∈ A, textChar c = true) → (∀ c ∈ B, textChar c = true) →
      (∀ c ∈ C, textChar c = true) → B ≠ [] →
      noTwoSpaces A = true → noTwoSpaces B = true → noTwoSpaces C = true →
      headOk A = true → lastOk C = true →
      dn₁ ≠ [] → (∀ c ∈ dn₁, pyIsDigit c = true) →
      dm₁ ≠ [] → (∀ c ∈ dm₁, pyIsDigit c = true) →
      dn₂ ≠ [] → (∀ c ∈ dn₂, pyIsDigit c = true) →
      dm₂ ≠ [] → (∀ c ∈ dm₂, pyIsDigit c = true) →
      hh₁ ≠ [] → hh₁.length ≤ 2 → (∀ c ∈ hh₁, pyIsDigit c = true) →
      hh₂ ≠ [] → hh₂.length ≤ 2 → (∀ c ∈ hh₂, pyIsDigit c = true) →
      pyIsDigit m1 = true → pyIsDigit m2 = true →
      pyIsDigit s1 = true → pyIsDigit s2 = true →
      pyIsDigit m1' = true → pyIsDigit m2' = true →
      pyIsDigit s1' = true → pyIsDigit s2' = true →
      (ap₁ = ['A', 'M'] ∨ ap₁ = ['P', 'M']) →
      (ap₂ = ['A', 'M'] ∨ ap₂ = ['P', 'M']) →
      fbNormalize (A ++ pageFooter dn₁ dm₁ ++ B ++
          timeStamp hh₁ m1 m2 s1 s2 ap₁ ++ C) =
        fbNormalize (A ++ pageFooter dn₂ dm₂ ++ B ++
          timeStamp hh₂ m1' m2' s1' s2' ap₂ ++ C) := by
  constructor
  · decide
  · intro A B C dn₁ dm₁ dn₂ dm₂ hh₁ hh₂ m1 m2 s1 s2 m1' m2' s1' s2' ap₁ ap₂
      hA hB hC hBne hAns hBns hCns hAhead hClast
      hdn₁ hdnd₁ hdm₁ hdmd₁ hdn₂ hdnd₂ hdm₂ hdmd₂
      hhne₁ hhlen₁ hhd₁ hhne₂ hhlen₂ hhd₂ hm1 hm2 hs1 hs2 hm1' hm2' hs1' hs2'
      hap₁ hap₂
    rw [fbNormalize_composed A B C dn₁ dm₁ hh₁ m1 m2 s1 s2 ap₁ hA hB hC hBne
        hAns hBns hCns hAhead hClast
        hdn₁ hdnd₁ hdm₁ hdmd₁ hhne₁ hhlen₁ hhd₁ hm1 hm2 hs1 hs2 hap₁,
      fbNormalize_composed A B C dn₂ dm₂ hh₂ m1' m2' s1' s2' ap₂ hA hB hC hBne
        hAns hBns hCns hAhead hClast
        hdn₂ hdnd₂ hdm₂ hdmd₂ hhne₂ hhlen₂ hhd₂ hm1' hm2' hs1' hs2' hap₂]

/-- Witness for `fingerprint_ignores_page_and_timestamp`: the general part
applied to ordinary multi-word text around a `"Page 3 of 10"`/`"Page 4 of 9"`
footer and a `"2:15:07 PM"`/`"11:45:30 AM"` timestamp, all hypotheses
discharged at the concrete input. -/
theorem fingerprint_ignores_page_and_timestamp_witness :
    fbNormalize ("hello world ".toList ++ pageFooter ['3'] ['1', '0'] ++
        " middle text ".toList ++ timeStamp ['2'] '1' '5' '0' '7' ['P', 'M'] ++
        " the end".toList) =
      fbNormalize ("hello world ".toList ++ pageFooter ['4'] ['9'] ++
        " middle text ".toList ++ timeStamp ['1', '1'] '4' '5' '3' '0' ['A', 'M'] ++
        " the end".toList) :=
  fingerprint_ignores_page_and_timestamp.2 "hello world ".toList
    " middle text ".toList " the end".toList ['3'] ['1', '0'] ['4'] ['9']
    ['2'] ['1', '1'] '1' '5' '0' '7' '4' '5' '3' '0' ['P', 'M'] ['A', 'M']
    (by decide) (by decide) (by decide) (by decide) (by decide) (by decide)
    (by decide) (by decide) (by decide) (by decide) (by decide) (by decide)
    (by decide) (by decide) (by decide) (by decide) (by decide) (by decide)
    (by decide) (by decide) (by decide) (by decide) (by decide) (by decide)
    (by decide) (by decide) (by decide) (by decide) (by decide) (by decide)
    (by decide) (by decide) (by decide)
